import Mathlib

/-!
Shallow embedding of the measurement-reproduction engine of
td-report-web (src/reproduce.mjs) and proofs about it.

Modelling conventions:
* a byte buffer (JS Uint8Array) is a `List Nat`, one element per byte;
* DataView stores wrap modulo the field width exactly as in JS, and
  out-of-range DataView accesses surface as `Except.error` (JS throws a
  RangeError); plain `kernel[i] = v` Uint8Array element writes are
  silent no-ops out of range, matching `List.set`;
* the platform SHA-384 primitive is an abstract parameter
  `h : List Nat → List Nat`; every digest in the model is `h preimage`;
* JS strings in the engine are ASCII except for decoded payload text, so
  string-typed fields keep `String`, while byte-slice comparisons against
  ASCII literals are modelled as `List Nat` comparisons (TextDecoder maps
  invalid UTF-8 to U+FFFD, so a decoded string equals an ASCII literal
  exactly when the underlying bytes equal the literal's ASCII bytes).
-/

set_option maxRecDepth 8000

namespace TdReport

instance {ε α : Type} [DecidableEq ε] [DecidableEq α] : DecidableEq (Except ε α) := fun x y =>
  match x, y with
  | .ok a, .ok b =>
    if h : a = b then isTrue (by rw [h]) else isFalse (by intro hc; cases hc; exact h rfl)
  | .error a, .error b =>
    if h : a = b then isTrue (by rw [h]) else isFalse (by intro hc; cases hc; exact h rfl)
  | .ok _, .error _ => isFalse (by intro hc; cases hc)
  | .error _, .ok _ => isFalse (by intro hc; cases hc)

/-- Byte `k` of the little-endian encoding of `v`. -/
def leByte (v k : Nat) : Nat := v / 2 ^ (8 * k) % 256

/-- DataView.setUint16 little-endian byte pair (wraps modulo 2^16). -/
def u16le (v : Nat) : List Nat := [leByte v 0, leByte v 1]

/-- DataView.setUint32 little-endian bytes (wraps modulo 2^32). -/
def u32le (v : Nat) : List Nat := [leByte v 0, leByte v 1, leByte v 2, leByte v 3]

/-- DataView.setBigUint64 little-endian bytes (wraps modulo 2^64). -/
def u64le (v : Nat) : List Nat :=
  [leByte v 0, leByte v 1, leByte v 2, leByte v 3,
   leByte v 4, leByte v 5, leByte v 6, leByte v 7]

/-- Big-endian 16-bit byte pair. -/
def u16be (v : Nat) : List Nat := [leByte v 1, leByte v 0]

/-- Big-endian 64-bit bytes. -/
def u64be (v : Nat) : List Nat :=
  [leByte v 7, leByte v 6, leByte v 5, leByte v 4,
   leByte v 3, leByte v 2, leByte v 1, leByte v 0]

/-- JS ToUint16 of a possibly negative integer. -/
def toU16 (v : Int) : Nat := (v % 65536).toNat

/-- JS ToUint32 of a possibly negative integer. -/
def toU32 (v : Int) : Nat := (v % 4294967296).toNat

/-- Write the bytes `d` into buffer `b` starting at offset `o`
(byte-by-byte, out-of-range positions silently dropped; the fallible
DataView wrappers below check bounds before calling this). -/
def writeBytes (b : List Nat) (o : Nat) : List Nat → List Nat
  | [] => b
  | x :: xs => writeBytes (b.set o x) (o + 1) xs

/-- JS TypedArray.subarray(s, e): the byte slice [s, e), clamped. -/
def subarray (b : List Nat) (s e : Nat) : List Nat := (b.drop s).take (e - s)

/-- Unchecked little-endian u16 read (bytes default to 0). -/
def getU16leD (b : List Nat) (o : Nat) : Nat :=
  b.getD o 0 + 256 * b.getD (o + 1) 0

/-- Unchecked little-endian u32 read (bytes default to 0). -/
def getU32leD (b : List Nat) (o : Nat) : Nat :=
  b.getD o 0 + 256 * b.getD (o + 1) 0 + 65536 * b.getD (o + 2) 0 +
    16777216 * b.getD (o + 3) 0

/-- Unchecked little-endian u64 read (bytes default to 0). -/
def getU64leD (b : List Nat) (o : Nat) : Nat :=
  getU32leD b o + 4294967296 * getU32leD b (o + 4)

/-- Unchecked big-endian u16 read. -/
def getU16beD (b : List Nat) (o : Nat) : Nat :=
  256 * b.getD o 0 + b.getD (o + 1) 0

/-- Unchecked big-endian u32 read. -/
def getU32beD (b : List Nat) (o : Nat) : Nat :=
  16777216 * b.getD o 0 + 65536 * b.getD (o + 1) 0 + 256 * b.getD (o + 2) 0 +
    b.getD (o + 3) 0

/-- DataView.getUint16 (little-endian): throws out of range. -/
def getU16 (b : List Nat) (o : Nat) : Except String Nat :=
  if o + 2 ≤ b.length then .ok (getU16leD b o) else .error "DataView access out of range"

/-- DataView.getUint32 (little-endian): throws out of range. -/
def getU32 (b : List Nat) (o : Nat) : Except String Nat :=
  if o + 4 ≤ b.length then .ok (getU32leD b o) else .error "DataView access out of range"

/-- DataView.setUint16 (little-endian, value wraps): throws out of range. -/
def setU16 (b : List Nat) (o : Nat) (v : Int) : Except String (List Nat) :=
  if o + 2 ≤ b.length then .ok (writeBytes b o (u16le (toU16 v)))
  else .error "DataView access out of range"

/-- DataView.setUint32 (little-endian, value wraps): throws out of range. -/
def setU32 (b : List Nat) (o : Nat) (v : Int) : Except String (List Nat) :=
  if o + 4 ≤ b.length then .ok (writeBytes b o (u32le (toU32 v)))
  else .error "DataView access out of range"

/-- DataView.setBigUint64 (little-endian, value wraps): throws out of range. -/
def setU64 (b : List Nat) (o : Nat) (v : Nat) : Except String (List Nat) :=
  if o + 8 ≤ b.length then .ok (writeBytes b o (u64le v))
  else .error "DataView access out of range"

/-- ASCII bytes of a string (all engine literals are ASCII). -/
def ascii (s : String) : List Nat := s.data.map Char.toNat

/-- The UTF-16LE encoder of the source (one LE u16 per UTF-16 code unit;
the engine only feeds it BMP text, where Lean code points and JS code
units coincide). -/
def utf16LeEncode (s : String) : List Nat :=
  (s.data.map (fun c => u16le c.toNat)).flatten

/-- Simplified TextDecoder: ASCII bytes decode to themselves, anything
else to U+FFFD.  The engine only compares decoded text against ASCII
literals or re-encodes a UKI .cmdline section, so only the ASCII part of
TextDecoder behaviour is observable in the claims. -/
def utf8DecodeAscii (b : List Nat) : String :=
  String.mk (b.map (fun n => if n < 128 then Char.ofNat n else '�'))

/-- Insert `x` into a list already sorted by `key`, after all strictly
smaller keys and before equal ones. -/
def insertByKey {α : Type} (key : α → Nat) (x : α) : List α → List α
  | [] => [x]
  | y :: ys => if key y < key x then y :: insertByKey key x ys else x :: y :: ys

/-- Stable sort by a numeric key (insertion sort; stable sorts are
unique, so this agrees with Array.prototype.sort under a `key a - key b`
comparator, which is stable in modern engines). -/
def sortByKey {α : Type} (key : α → Nat) : List α → List α
  | [] => []
  | x :: xs => insertByKey key x (sortByKey key xs)

/-- concatBytes with the length defaulted: plain concatenation. -/
def concatBytes (parts : List (List Nat)) : List Nat := parts.flatten

/-- concatBytes with an explicit target length: parts are copied into a
zeroed buffer of size `len`; Uint8Array.set throws if they overflow. -/
def concatBytesPadded (parts : List (List Nat)) (len : Nat) : Except String (List Nat) :=
  if parts.flatten.length ≤ len then
    .ok (parts.flatten ++ List.replicate (len - parts.flatten.length) 0)
  else .error "offset is out of bounds"

/-- Value of one hex digit character (parseInt semantics for the
characters that actually occur in the engine's UUID literals). -/
def hexDigitVal (c : Char) : Nat :=
  if '0' ≤ c ∧ c ≤ '9' then c.toNat - 48
  else if 'a' ≤ c ∧ c ≤ 'f' then c.toNat - 87
  else if 'A' ≤ c ∧ c ≤ 'F' then c.toNat - 55
  else 0

/-- parseInt(s, 16) for the hex strings appearing in UUID literals. -/
def parseHexNat (s : String) : Nat :=
  s.data.foldl (fun acc c => acc * 16 + hexDigitVal c) 0

/-- Number.prototype.toString(16) followed by padStart(w, "0"). -/
def hexPad (n w : Nat) : String :=
  let ds := Nat.toDigits 16 n
  String.mk (List.replicate (w - ds.length) '0') ++ String.mk ds

/-- String.prototype.split("-") over the character list. -/
def splitDashGo (acc : List Char) : List Char → List (List Char)
  | [] => [acc.reverse]
  | c :: cs => if c = '-' then acc.reverse :: splitDashGo [] cs else splitDashGo (c :: acc) cs

/-- uuid.split("-") as a list of strings. -/
def splitDash (s : String) : List String :=
  (splitDashGo [] s.data).map (fun cs => String.mk cs)

/-- uuidToBytes of the source: mixed-endian 16-byte UUID encoding
(u32 LE, u16 LE, u16 LE, then a big-endian u64 of the last hex group
overwritten at bytes 8..10 by the big-endian fourth group). -/
def uuidToBytes (uuid : String) : List Nat :=
  let parts := splitDash uuid
  let b0 := writeBytes (List.replicate 16 0) 0 (u32le (parseHexNat (parts.getD 0 "")))
  let b1 := writeBytes b0 4 (u16le (parseHexNat (parts.getD 1 "")))
  let b2 := writeBytes b1 6 (u16le (parseHexNat (parts.getD 2 "")))
  let b3 := writeBytes b2 8 (u64be (parseHexNat (parts.getD 4 "")))
  writeBytes b3 8 (u16be (parseHexNat (parts.getD 3 "")))

/-- bytesToUuid of the source: renders the first 16 bytes of `b` in the
mixed-endian UUID layout (callers guarantee at least 16 bytes; JS throws
for shorter buffers). -/
def bytesToUuid (b : List Nat) : String :=
  hexPad (getU32leD b 0) 8 ++ "-" ++ hexPad (getU16leD b 4) 4 ++ "-" ++
    hexPad (getU16leD b 6) 4 ++ "-" ++ hexPad (getU16beD b 8) 4 ++ "-" ++
    (hexPad (getU32beD b 10) 8 ++ hexPad (getU16beD b 14) 4)

/-! ## Data model -/

/-- One TDX metadata section (section record of the metadata table). -/
structure TdxMetadataSection where
  rawOffset : Nat
  rawSize : Nat
  memBase : Nat
  memSize : Nat
  sectionType : String
  extendMr : Bool
  deriving Repr, DecidableEq

/-- Parsed firmware: the image bytes plus its metadata sections. -/
structure TdFirmware where
  bytes : List Nat
  tdxMetadataSections : List TdxMetadataSection
  deriving Repr, DecidableEq

/-- Hardware part of a trust domain. -/
structure TdHardware where
  totalMemoryBytes : Nat
  acpiTables : List Nat
  deriving Repr, DecidableEq

/-- Software part of a trust domain. -/
structure TdSoftware where
  kernel : List Nat
  initrd : Option (List Nat)
  cmdline : Option String
  deriving Repr, DecidableEq

/-- The reproduction input. -/
structure TrustDomain where
  hardware : TdHardware
  firmware : TdFirmware
  software : TdSoftware
  deriving Repr, DecidableEq

/-- One event of the reproduced RTMR event log. -/
structure TdEvent where
  name : String
  type : String
  register : Nat
  metadata : List (String × String)
  digest : List Nat
  deriving Repr, DecidableEq

/-- Result of reproduceRtmr. -/
structure RtmrResult where
  registers : List (List Nat)
  events : List TdEvent
  deriving Repr, DecidableEq

/-! ## MRTD engine (reproduceMrtd) -/

def PAGE_SIZE : Nat := 0x1000

/-- The 128-byte MEM.PAGE.ADD record for guest-physical address `addr`:
a zeroed 128-byte buffer with the ASCII tag at offset 0 and the address
as a wrapped LE u64 at offset 16. -/
def memPageAddRecord (addr : Nat) : List Nat :=
  writeBytes (writeBytes (List.replicate 128 0) 0 (ascii "MEM.PAGE.ADD")) 16 (u64le addr)

/-- The 128-byte MR.EXTEND header record for guest-physical address `addr`. -/
def mrExtendRecord (addr : Nat) : List Nat :=
  writeBytes (writeBytes (List.replicate 128 0) 0 (ascii "MR.EXTEND")) 16 (u64le addr)

/-- The MR.EXTEND chunk triples of one page of an extendMr section:
for each 256-byte chunk `j` of page `i`, the header record followed by
the two 128-byte halves of the firmware bytes at rawOffset. -/
def mrExtendPageParts (bytes : List Nat) (s : TdxMetadataSection) (i : Nat) : List (List Nat) :=
  (List.range (PAGE_SIZE / 0x100)).flatMap (fun j =>
    let offsetVal := i * PAGE_SIZE + j * 0x100
    let fwOffset := s.rawOffset + offsetVal
    [mrExtendRecord (s.memBase + offsetVal),
     subarray bytes fwOffset (fwOffset + 0x80),
     subarray bytes (fwOffset + 0x80) (fwOffset + 0x100)])

/-- The preimage parts contributed by one metadata section.  The source
computes `numPages = memSize / PAGE_SIZE` with JS float division and runs
the loop `⌈numPages⌉` times; `memSize` is page-aligned by the metadata
invariant, where this equals the Nat division used here. -/
def mrtdSectionParts (bytes : List Nat) (s : TdxMetadataSection) : List (List Nat) :=
  let numPages := s.memSize / PAGE_SIZE
  (List.range numPages).map (fun i => memPageAddRecord (s.memBase + i * PAGE_SIZE)) ++
    (if s.extendMr then (List.range numPages).flatMap (mrExtendPageParts bytes s) else [])

/-- The full MRTD hash preimage: section parts in declared order. -/
def mrtdPreimage (firmware : TdFirmware) : List Nat :=
  concatBytes (firmware.tdxMetadataSections.flatMap (mrtdSectionParts firmware.bytes))

/-- reproduceMrtd: SHA-384 (abstract `h`) of the concatenated records. -/
def reproduceMrtd (h : List Nat → List Nat) (firmware : TdFirmware) : List Nat :=
  h (mrtdPreimage firmware)

/-! ## HOB builder (getHobHashPreimage) -/

def HOB_TABLE_SIZE : Nat := 56
def HOB_RESOURCE_DESCRIPTOR_SIZE : Nat := 48
def HOB_END_SIZE : Nat := 8

/-- The TD_HOB and TempMem sections sorted by memBase (stable, matching
Array.prototype.sort with the numeric comparator). -/
def hobReservedSorted (sections : List TdxMetadataSection) : List TdxMetadataSection :=
  sortByKey (fun s => s.memBase)
    (sections.filter (fun s => s.sectionType = "TD_HOB" ∨ s.sectionType = "TempMem"))

/-- The (start, end, kind) walk over the sorted reserved sections,
starting from `memOffset`; kind 1 marks a reserved section range, kind 0
an unclaimed gap.  Returns the emitted entries together with the final
memOffset. -/
def hobEntriesGo (memOffset : Nat) : List TdxMetadataSection → List (Nat × Nat × Nat) × Nat
  | [] => ([], memOffset)
  | s :: rest =>
    let gap : List (Nat × Nat × Nat) :=
      if s.memBase > memOffset then [(memOffset, s.memBase, 0)] else []
    let next := hobEntriesGo (s.memBase + s.memSize) rest
    (gap ++ (s.memBase, s.memBase + s.memSize, 1) :: next.1, next.2)

/-- All ranges emitted by the HOB builder for `sections` and
`totalMemoryBytes` (including the final gap up to totalMemoryBytes). -/
def hobEntries (sections : List TdxMetadataSection) (totalMemoryBytes : Nat) :
    List (Nat × Nat × Nat) :=
  let walk := hobEntriesGo 0 (hobReservedSorted sections)
  walk.1 ++ (if walk.2 < totalMemoryBytes then [(walk.2, totalMemoryBytes, 0)] else [])

/-- resourceType chosen for an entry kind (0x00000000 reserved,
0x00000007 system memory). -/
def resourceTypeOfKind (kind : Nat) : Nat := if kind = 1 then 0x00000000 else 0x00000007

/-- The final memOffset after walking the sections from `m`. -/
def hobEnd : Nat → List TdxMetadataSection → Nat
  | m, [] => m
  | _, s :: rest => hobEnd (s.memBase + s.memSize) rest

/-- The sections, in walk order, are pairwise disjoint and start at or
after `m` (each section begins no earlier than the previous one ends). -/
def hobChainedFrom : Nat → List TdxMetadataSection → Bool
  | _, [] => true
  | m, s :: rest => decide (m ≤ s.memBase) && hobChainedFrom (s.memBase + s.memSize) rest

/-- The entries exactly tile the address range [m, e): the first starts
at `m`, each next starts where the previous ended, every entry has
start ≤ end, and the last ends at `e`.  This is the contiguity,
non-overlap and coverage property of the HOB range walk. -/
def entriesCover : Nat → Nat → List (Nat × Nat × Nat) → Prop
  | m, e, [] => m = e
  | m, e, x :: rest => x.1 = m ∧ m ≤ x.2.1 ∧ entriesCover x.2.1 e rest

/-- Serialize one 48-byte resource-descriptor HOB into the buffer. -/
def writeHobEntry (hob : List Nat) (hobOffset : Nat) (entry : Nat × Nat × Nat) :
    Except String (List Nat) := do
  let resourceType := resourceTypeOfKind entry.2.2
  let hob ← setU16 hob hobOffset 0x0003
  let hob ← setU16 hob (hobOffset + 2) HOB_RESOURCE_DESCRIPTOR_SIZE
  let hob ← setU32 hob (hobOffset + 24) resourceType
  let hob ← setU32 hob (hobOffset + 28) 0x00000007
  let hob ← setU64 hob (hobOffset + 32) entry.1
  setU64 hob (hobOffset + 40) (entry.2.1 - entry.1)

/-- Serialize all resource-descriptor HOBs starting at `hobOffset`. -/
def writeHobEntries (hob : List Nat) (hobOffset : Nat) :
    List (Nat × Nat × Nat) → Except String (List Nat × Nat)
  | [] => .ok (hob, hobOffset)
  | e :: rest => do
    let hob ← writeHobEntry hob hobOffset e
    writeHobEntries hob (hobOffset + 48) rest

/-- getHobHashPreimage: build the HOB buffer of TD_HOB.memSize bytes and
return it truncated to just before the END HOB. -/
def getHobHashPreimage (sections : List TdxMetadataSection) (totalMemoryBytes : Nat) :
    Except String (List Nat) := do
  let hobSection ←
    match sections.find? (fun s => s.sectionType = "TD_HOB") with
    | some s => pure s
    | none => .error "TD_HOB section not found"
  let entries := hobEntries sections totalMemoryBytes
  let hob := List.replicate hobSection.memSize 0
  let hob ← setU16 hob 0 0x0001
  let hob ← setU16 hob 2 HOB_TABLE_SIZE
  let hob ← setU32 hob 8 0x0009
  let written ← writeHobEntries hob HOB_TABLE_SIZE entries
  let preimageEnd := written.2
  let hob ← setU16 written.1 preimageEnd 0xffff
  let hob ← setU16 hob (preimageEnd + 2) HOB_END_SIZE
  let hobOffset := preimageEnd + HOB_END_SIZE
  let hob ← setU64 hob 48 (hobSection.memBase + hobOffset)
  pure (subarray hob 0 preimageEnd)

/-! ## ACPI (parseAcpiTables, getRsdp, getTableLoader) -/

/-- A discovered ACPI table descriptor; the signature is kept as its raw
4 bytes (the JS string comparisons against ASCII literals coincide with
byte comparisons). -/
structure AcpiTable where
  signature : List Nat
  offset : Nat
  length : Nat
  deriving Repr, DecidableEq

/-- The loop body of parseAcpiTables, with explicit fuel: running out of
fuel (`none`) models the non-termination of the JS while loop, which
never stops when a table length of 0 keeps the offset in place. -/
def parseAcpiTablesGo (bytes : List Nat) :
    Nat → Nat → List AcpiTable → Option (List AcpiTable)
  | 0, _, _ => none
  | fuel + 1, offset, acc =>
    if offset < bytes.length then
      if offset + 8 > bytes.length then some acc.reverse
      else
        let signature := subarray bytes offset (offset + 4)
        if signature = [0, 0, 0, 0] then some acc.reverse
        else
          let length := getU32leD bytes (offset + 4)
          parseAcpiTablesGo bytes fuel (offset + length)
            ({ signature, offset, length } :: acc)
    else some acc.reverse

/-- parseAcpiTables: walk the blob from offset 0.  The offset strictly
increases whenever every parsed length is positive, so
`bytes.length + 1` rounds of fuel suffice for all terminating runs. -/
def parseAcpiTables (bytes : List Nat) : Option (List AcpiTable) :=
  parseAcpiTablesGo bytes (bytes.length + 1) 0 []

/-- The RSDP preimage for a given RSDT address. -/
def rsdpFor (rsdtOffset : Nat) : List Nat :=
  let r := writeBytes (List.replicate 20 0) 0 (ascii "RSD PTR ")
  let r := r.set 8 0
  let r := writeBytes r 9 (ascii "BOCHS ")
  let r := r.set 15 0
  writeBytes r 16 (u32le rsdtOffset)

/-- getRsdp: 20-byte RSDP preimage; the RSDT address is the offset of the
first RSDT table, 0 when absent. -/
def getRsdp (tables : List AcpiTable) : List Nat :=
  rsdpFor (((tables.find? (fun t => t.signature = ascii "RSDT")).map (fun t => t.offset)).getD 0)

/-- ALLOCATE table-loader command (128 bytes). -/
def serializeAllocate (filename : String) (align zone : Nat) : List Nat :=
  let r := writeBytes (List.replicate 128 0) 0 (u32le 1)
  let r := writeBytes r 4 (ascii filename)
  let r := writeBytes r 60 (u32le align)
  writeBytes r 64 [zone % 256]

/-- ADD_POINTER table-loader command (128 bytes). -/
def serializeAddPointer (destFile srcFile : String) (offset size : Nat) : List Nat :=
  let r := writeBytes (List.replicate 128 0) 0 (u32le 2)
  let r := writeBytes r 4 (ascii destFile)
  let r := writeBytes r 60 (ascii srcFile)
  let r := writeBytes r 116 (u32le offset)
  writeBytes r 120 [size % 256]

/-- ADD_CHECKSUM table-loader command (128 bytes). -/
def serializeAddChecksum (filename : String) (offset start length : Nat) : List Nat :=
  let r := writeBytes (List.replicate 128 0) 0 (u32le 3)
  let r := writeBytes r 4 (ascii filename)
  let r := writeBytes r 60 (u32le offset)
  let r := writeBytes r 64 (u32le start)
  writeBytes r 68 (u32le length)

/-- The table-loader commands contributed by one discovered table. -/
def tableLoaderCommandsFor (table : AcpiTable) : List (List Nat) :=
  (if table.signature = ascii "FACP" then
    [serializeAddPointer "etc/acpi/tables" "etc/acpi/tables" (table.offset + 36) 4,
     serializeAddPointer "etc/acpi/tables" "etc/acpi/tables" (table.offset + 40) 4,
     serializeAddPointer "etc/acpi/tables" "etc/acpi/tables" (table.offset + 140) 8]
  else []) ++
  (if table.signature = ascii "RSDT" then
    [serializeAddPointer "etc/acpi/tables" "etc/acpi/tables" (table.offset + 36) 4,
     serializeAddPointer "etc/acpi/tables" "etc/acpi/tables" (table.offset + 40) 4,
     serializeAddPointer "etc/acpi/tables" "etc/acpi/tables" (table.offset + 44) 4,
     serializeAddPointer "etc/acpi/tables" "etc/acpi/tables" (table.offset + 48) 4]
  else []) ++
  (if table.signature ≠ ascii "FACS" then
    [serializeAddChecksum "etc/acpi/tables" (table.offset + 9) table.offset table.length]
  else [])

/-- getTableLoader: the command stream zero-padded to 4096 bytes. -/
def getTableLoader (tables : List AcpiTable) : Except String (List Nat) :=
  let commands :=
    [serializeAllocate "etc/acpi/rsdp" 16 2, serializeAllocate "etc/acpi/tables" 64 1] ++
    tables.flatMap tableLoaderCommandsFor ++
    [serializeAddPointer "etc/acpi/rsdp" "etc/acpi/tables" 16 4,
     serializeAddChecksum "etc/acpi/rsdp" 8 0 20]
  concatBytesPadded commands 4096

/-! ## Firmware metadata decoder (parseFirmware) -/

def TDX_METADATA_SECTION_TYPES : List String :=
  ["BFV", "CFV", "TD_HOB", "TempMem", "PermMem", "Payload", "PayloadParam",
   "TD_INFO", "TD_PARAMS"]

/-- Parse the fixed 32-byte section records of the metadata table. -/
def parseTdxSectionRecords (metadataTable : List Nat) :
    Nat → Nat → Except String (List TdxMetadataSection)
  | 0, _ => .ok []
  | count + 1, offset =>
    if offset + 32 > metadataTable.length then .error "Not enough data for section"
    else
      let sectionTypeIndex := getU32leD metadataTable (offset + 24)
      match TDX_METADATA_SECTION_TYPES[sectionTypeIndex]? with
      | none => .error "Invalid section type index"
      | some sectionType => do
        let rest ← parseTdxSectionRecords metadataTable count (offset + 32)
        .ok ({ rawOffset := getU32leD metadataTable offset,
               rawSize := getU32leD metadataTable (offset + 4),
               memBase := getU64leD metadataTable (offset + 8),
               memSize := getU64leD metadataTable (offset + 16),
               sectionType,
               extendMr := getU32leD metadataTable (offset + 28) &&& 1 == 1 } :: rest)

/-- parseTdxMetadataSections: header checks then the section records. -/
def parseTdxMetadataSections (metadataTable : List Nat) :
    Except String (List TdxMetadataSection) :=
  if metadataTable.length < 32 then .error "Data too short for TdxMetadata header"
  else if bytesToUuid metadataTable ≠ "e9eaf9f3-168e-44d5-a8eb-7f4d8738f6ae" then
    .error "Wrong metadata guid"
  else if subarray metadataTable 16 20 ≠ ascii "TDVF" then .error "Invalid signature"
  else if getU32leD metadataTable 24 ≠ 1 then .error "Unsupported version"
  else parseTdxSectionRecords metadataTable (getU32leD metadataTable 28) 32

/-- The backward walk of getTdxMetadataOffset over the GUID-table area,
with fuel: a zero entry length keeps the offset in place, in which case
the JS loop never stops. -/
def tdxMetadataOffsetGo (image : List Nat) (tableStart : Nat) :
    Nat → Nat → Option (Except String Nat)
  | 0, _ => none
  | fuel + 1, offset =>
    if offset > tableStart then
      if bytesToUuid (image.drop (offset - 16)) = "e47a6535-984a-4798-865e-4685a7bf8ec2" then
        some (.ok (image.length - getU32leD image (offset - 16 - 2 - 4)))
      else
        tdxMetadataOffsetGo image tableStart fuel (offset - getU16leD image (offset - 16 - 2))
    else some (.error "TDX metadata offset not found")

/-- getTdxMetadataOffset: offset-from-start of the metadata table header,
read from the GUID entry e47a6535-984a-4798-865e-4685a7bf8ec2. -/
def getTdxMetadataOffset (image : List Nat) : Option (Except String Nat) :=
  let offset := image.length - 0x30 - 2
  let tableLength := getU16leD image offset
  let tableStart := image.length - 0x30 - tableLength
  tdxMetadataOffsetGo image tableStart (image.length + 1) offset

/-- The metadata parsing performed after the footer GUID check passes
(an out-of-fuel GUID walk models the JS loop never terminating). -/
def tdxMetadataParseBody (firmware : List Nat) : Except String (List TdxMetadataSection) := do
  let offset ←
    match getTdxMetadataOffset firmware with
    | none => .error "GUID entry walk does not terminate"
    | some r => r
  parseTdxMetadataSections (firmware.drop (offset - 16))

/-- getTdxMetadataSections: footer GUID check, then the metadata walk. -/
def getTdxMetadataSections (firmware : List Nat) : Except String (List TdxMetadataSection) :=
  let footerOffset := firmware.length - 0x30
  if bytesToUuid (firmware.drop footerOffset) ≠ "96b582de-1fb2-45f7-baea-a366c55a082d" then
    .error "Wrong table footer guid"
  else tdxMetadataParseBody firmware

/-- parseFirmware: the image together with its parsed sections. -/
def parseFirmware (bytes : List Nat) : Except String TdFirmware := do
  let sections ← getTdxMetadataSections bytes
  .ok { bytes, tdxMetadataSections := sections }

/-! ## QEMU kernel header patcher (qemuPatchKernel) -/

def ACPI_DATA_SIZE : Nat := 0x20000 + 0x8000

/-- Boot-protocol version: LE u16 at 0x206 when the four bytes at 0x202
decode to "HdrS", else 0.  (The u16 read throws when the magic matched
on a buffer shorter than 0x208, as in JS.) -/
def readProtocol (kernel : List Nat) : Except String Nat :=
  if subarray kernel 0x202 0x206 = ascii "HdrS" then getU16 kernel 0x206 else pure 0

/-- The XLF_CAN_BE_LOADED_ABOVE_4G test, evaluated (and able to throw)
only for protocol ≥ 0x20c, mirroring JS short-circuit evaluation. -/
def readUseXlf (kernel : List Nat) (protocol : Nat) : Except String Bool :=
  if protocol ≥ 0x20c then do
    let xlf ← getU16 kernel 0x236
    pure (xlf &&& 2 != 0)
  else pure false

/-- The initrd limit before capping: 0xffffffff above 4G, the LE u32 at
0x22c for protocol ≥ 0x203, else 0x37ffffff. -/
def readInitrdMaxRaw (kernel : List Nat) (protocol : Nat) (useXlf : Bool) :
    Except String Int :=
  if useXlf then pure 0xffffffff
  else if protocol ≥ 0x203 then do
    let v ← getU32 kernel 0x22c
    pure (v : Int)
  else pure 0x37ffffff

/-- The header writes of qemuPatchKernel (everything except the initrd
fields). -/
def writeKernelPatch (kernel : List Nat) (protocol : Nat) (cmdlineAddr realAddr : Int) :
    Except String (List Nat) := do
  let kernel ←
    if protocol ≥ 0x202 then setU32 kernel 0x228 cmdlineAddr
    else do
      let k ← setU16 kernel 0x20 0xa33f
      setU16 k 0x22 (cmdlineAddr - realAddr)
  let kernel := if protocol ≥ 0x200 then kernel.set 0x210 0xb0 else kernel
  if protocol ≥ 0x201 then
    let k := kernel.set 0x211 ((kernel.getD 0x211 0) ||| 0x80)
    setU16 k 0x224 (cmdlineAddr - realAddr - 0x200)
  else pure kernel

/-- The initrd checks and writes of qemuPatchKernel. -/
def writeInitrdPatch (kernel : List Nat) (protocol : Nat) (initrdMax : Int) :
    Option (List Nat) → Except String (List Nat)
  | none => pure kernel
  | some initrd =>
    if protocol < 0x200 then
      .error "RAM disk is already in kernel image or kernel is too old"
    else if (initrd.length : Int) ≥ initrdMax then .error "RAM disk is too large"
    else do
      let initrdAddr : Nat := (initrdMax - (initrd.length : Int)).toNat / 4096 * 4096
      let k ← setU32 kernel 0x218 (initrdAddr : Int)
      setU32 k 0x21c (initrd.length : Int)

/-- qemuPatchKernel: mirrors QEMU x86_load_linux; returns the patched
kernel bytes (the source mutates software.kernel in place). -/
def qemuPatchKernel (software : TdSoftware) (totalMemoryBytes : Nat) :
    Except String (List Nat) := do
  let kernel := software.kernel
  let ramSize := totalMemoryBytes
  let cmdlineSize : Nat := ((software.cmdline.getD "").length + 16) / 16 * 16
  let lowmem : Nat := if ramSize ≥ 0xb0000000 then 0x80000000 else 0xb0000000
  let below4gMemSize : Nat := if ramSize ≥ lowmem then lowmem else ramSize
  let protocol ← readProtocol kernel
  let oldstyle : Bool := protocol < 0x202 || (kernel.getD 0x211 0) &&& 0x01 == 0
  let realAddr : Int := if oldstyle then 0x90000 else 0x10000
  let cmdlineAddr : Int := if oldstyle then 0x9a000 - (cmdlineSize : Int) else 0x20000
  let useXlf ← readUseXlf kernel protocol
  let initrdMaxRaw ← readInitrdMaxRaw kernel protocol useXlf
  let initrdMax : Int :=
    if initrdMaxRaw ≥ (below4gMemSize : Int) - (ACPI_DATA_SIZE : Int) then
      (below4gMemSize : Int) - (ACPI_DATA_SIZE : Int) - 1
    else initrdMaxRaw
  let kernel ← writeKernelPatch kernel protocol cmdlineAddr realAddr
  writeInitrdPatch kernel protocol initrdMax software.initrd

/-! ## PE/COFF parser and Authenticode-style preimage -/

/-- One parsed PE section; the name keeps its raw 8 bytes. -/
structure PeSection where
  name : List Nat
  body : List Nat
  rawBody : List Nat
  pointerToRawData : Nat
  deriving Repr, DecidableEq

/-- The optional-header facts the preimage needs. -/
structure PeOptionalHeader where
  sizeOfHeaders : Nat
  numberOfRvaAndSizes : Nat
  offset : Nat
  fixedOptionalHeaderSize : Nat
  deriving Repr, DecidableEq

/-- Parsed PE file. -/
structure PortableExecutable where
  optionalHeader : PeOptionalHeader
  sections : List PeSection
  deriving Repr, DecidableEq

/-- Parse `count` 40-byte section headers starting at `start`. -/
def parsePeSections (bytes : List Nat) (start : Nat) :
    Nat → Nat → Except String (List PeSection)
  | 0, _ => .ok []
  | count + 1, i => do
    let sectionHeaderOffset := start + i * 40
    if sectionHeaderOffset + 40 > bytes.length then
      .error "Invalid PE file: incomplete section header."
    else
      let virtualSize := getU32leD bytes (sectionHeaderOffset + 8)
      let sizeOfRawData := getU32leD bytes (sectionHeaderOffset + 16)
      let pointerToRawData := getU32leD bytes (sectionHeaderOffset + 20)
      let actualSize := min virtualSize sizeOfRawData
      if pointerToRawData + actualSize > bytes.length then
        .error "Invalid PE file: section exceeds file size."
      else do
        let rest ← parsePeSections bytes start count (i + 1)
        .ok ({ name := subarray bytes sectionHeaderOffset (sectionHeaderOffset + 8),
               body := subarray bytes pointerToRawData (pointerToRawData + actualSize),
               rawBody := subarray bytes pointerToRawData (pointerToRawData + sizeOfRawData),
               pointerToRawData } :: rest)

/-- parsePe: DOS/PE headers, optional-header magic, section headers. -/
def parsePe (bytes : List Nat) : Except String PortableExecutable := do
  if bytes.length < 0x40 then .error "Invalid PE file: too small for DOS header."
  else do
    let e_lfanew := getU32leD bytes 0x3c
    if e_lfanew + 4 > bytes.length then .error "Invalid PE file: incomplete PE header."
    else if subarray bytes e_lfanew (e_lfanew + 4) ≠ [0x50, 0x45, 0, 0] then
      .error "Invalid PE signature"
    else do
      let fileHeaderOffset := e_lfanew + 4
      let numberOfSections ← getU16 bytes (fileHeaderOffset + 2)
      let sizeOfOptionalHeader ← getU16 bytes (fileHeaderOffset + 16)
      let optionalHeaderOffset := fileHeaderOffset + 20
      let magic ← getU16 bytes optionalHeaderOffset
      let fixedOptionalHeaderSize ←
        if magic = 0x10b then pure 96
        else if magic = 0x20b then pure 112
        else Except.error "Unknown Optional Header Magic"
      let sizeOfHeaders ← getU32 bytes (optionalHeaderOffset + 60)
      let numberOfRvaAndSizes ← getU32 bytes (optionalHeaderOffset + fixedOptionalHeaderSize - 4)
      let sections ← parsePeSections bytes (optionalHeaderOffset + sizeOfOptionalHeader)
        numberOfSections 0
      .ok { optionalHeader := { sizeOfHeaders, numberOfRvaAndSizes,
                                offset := optionalHeaderOffset, fixedOptionalHeaderSize },
            sections }

/-- The nonempty raw bodies sorted by raw file offset (stable sort, as
Array.prototype.sort). -/
def peValidSections (sections : List PeSection) : List PeSection :=
  sortByKey (fun s => s.pointerToRawData)
    (sections.filter (fun s => s.rawBody.length ≠ 0))

/-- sizeOfHeaders plus the raw bodies taken into the hash. -/
def peSumOfBytesHashed (oh : PeOptionalHeader) (sections : List PeSection) : Nat :=
  oh.sizeOfHeaders + ((peValidSections sections).map (fun s => s.rawBody.length)).sum

/-- The certificate-directory size: the LE u32 at certDirEntryOffset + 4
when a security directory entry exists and the read fits, else 0. -/
def peCertSize (bytes : List Nat) (oh : PeOptionalHeader) : Nat :=
  if oh.numberOfRvaAndSizes > 4 then
    let certDirSizeOffset := oh.offset + oh.fixedOptionalHeaderSize + 4 * 8 + 4
    if certDirSizeOffset + 4 ≤ bytes.length then getU32leD bytes certDirSizeOffset else 0
  else 0

/-- The header part of the preimage: everything up to sizeOfHeaders with
the CheckSum field and (when present) the certificate directory entry
skipped. -/
def peHeaderHashParts (bytes : List Nat) (oh : PeOptionalHeader) :
    Except String (List (List Nat)) :=
  let checksumFieldOffset := oh.offset + 0x40
  if checksumFieldOffset > bytes.length then
    .error "Invalid PE file: Checksum field offset exceeds file size."
  else
    let afterChecksumOffset := checksumFieldOffset + 4
    if oh.numberOfRvaAndSizes ≤ 4 then
      .ok [bytes.take checksumFieldOffset,
           subarray bytes afterChecksumOffset oh.sizeOfHeaders]
    else
      let certDirEntryOffset := oh.offset + oh.fixedOptionalHeaderSize + 4 * 8
      if certDirEntryOffset > oh.sizeOfHeaders then
        .error "Invalid PE file: Certificate Directory entry offset exceeds header size."
      else
        .ok [bytes.take checksumFieldOffset,
             subarray bytes afterChecksumOffset certDirEntryOffset,
             subarray bytes (certDirEntryOffset + 8) oh.sizeOfHeaders]

/-- getPeHashPreimage: the OVMF PE/COFF measurement preimage. -/
def getPeHashPreimage (bytes : List Nat) : Except String (List Nat) := do
  let pe ← parsePe bytes
  let oh := pe.optionalHeader
  let headerParts ← peHeaderHashParts bytes oh
  let sectionParts := (peValidSections pe.sections).map (fun s => s.rawBody)
  let sumOfBytesHashed := peSumOfBytesHashed oh pe.sections
  let imageSize := bytes.length
  let tailParts ←
    if imageSize > sumOfBytesHashed then
      let certSize := peCertSize bytes oh
      if imageSize > sumOfBytesHashed + certSize then
        .ok [subarray bytes sumOfBytesHashed (imageSize - certSize)]
      else if imageSize < sumOfBytesHashed + certSize then
        Except.error "Unsupported: File size is less than SUM_OF_BYTES_HASHED + CertSize."
      else .ok []
    else .ok []
  .ok (concatBytes (headerParts ++ sectionParts ++ tailParts))

/-! ## Event-log generator (reproduceEvents) and RTMR folder -/

def EFI_ACTIONS : List String :=
  ["Calling EFI Application from Boot Option",
   "Exit Boot Services Invocation",
   "Exit Boot Services Returned with Success"]

def GLOBAL_VAR_GUID : String := "8be4df61-93ca-11d2-aa0d-00e098032b8c"
def SECURITY_DB_GUID : String := "d719b2cb-3d3a-4596-a3bc-dad00e67656f"

/-- addEvent of the source: the digest is SHA-384 (abstract `h`) of the
preimage. -/
def mkEvent (h : List Nat → List Nat) (name type : String) (register : Nat)
    (metadata : List (String × String)) (preimage : List Nat) : TdEvent :=
  { name, type, register, metadata, digest := h preimage }

/-- getEmptyDriverConfigVariable: encoded GUID, name length as LE u64 in
a zeroed 16-byte block, then the UTF-16LE name. -/
def getEmptyDriverConfigVariable (uuid name : String) : List Nat :=
  concatBytes [uuidToBytes uuid,
               writeBytes (List.replicate 16 0) 0 (u64le name.length),
               utf16LeEncode name]

/-- getUiAppBootOption: the fixed UiApp boot-option block. -/
def getUiAppBootOption : List Nat :=
  concatBytes [[0x09, 0x01, 0x00, 0x00, 0x2c, 0x00],
               utf16LeEncode "UiApp\x00",
               [0x04, 0x07, 0x14, 0x00],
               uuidToBytes "7cb8bdc9-f8eb-4f34-aaea-3ee4af6516a1",
               [0x04, 0x06, 0x14, 0x00],
               uuidToBytes "462caa21-7614-4503-836e-8ab6f4662331",
               [0x7f, 0xff, 0x04, 0x00]]

/-- The events emitted before the kernel patch: HOB, CFV blobs, the five
empty Secure Boot variables, a separator, and the three ACPI events. -/
def preKernelEvents (h : List Nat → List Nat) (td : TrustDomain) :
    Except String (List TdEvent) := do
  let hob ← getHobHashPreimage td.firmware.tdxMetadataSections td.hardware.totalMemoryBytes
  let cfvEvents := td.firmware.tdxMetadataSections.filterMap (fun sec =>
    if sec.sectionType = "CFV" then
      some (mkEvent h "Configuration Firmware Volume (CFV)" "EV_EFI_PLATFORM_FIRMWARE_BLOB2" 0
        [] (subarray td.firmware.bytes sec.rawOffset (sec.rawOffset + sec.rawSize)))
    else none)
  let acpiTables ←
    match parseAcpiTables td.hardware.acpiTables with
    | none => .error "ACPI table walk does not terminate"
    | some tables => pure tables
  let tableLoader ← getTableLoader acpiTables
  .ok ([mkEvent h "TD Hand-Off Block (HOB)" "EV_EFI_HANDOFF_TABLES2" 0 [] hob] ++
    cfvEvents ++
    [mkEvent h "Secure boot mode" "EV_EFI_VARIABLE_DRIVER_CONFIG" 0
       [("name", "SecureBoot"), ("alias", "EFI_SECURE_BOOT_MODE_NAME"), ("value", "0")]
       (getEmptyDriverConfigVariable GLOBAL_VAR_GUID "SecureBoot"),
     mkEvent h "Public platform key" "EV_EFI_VARIABLE_DRIVER_CONFIG" 0
       [("name", "PK"), ("alias", "EFI_PLATFORM_KEY_NAME"), ("value", "0")]
       (getEmptyDriverConfigVariable GLOBAL_VAR_GUID "PK"),
     mkEvent h "Key exchange key signature database" "EV_EFI_VARIABLE_DRIVER_CONFIG" 0
       [("name", "KEK"), ("alias", "EFI_KEY_EXCHANGE_KEY_NAME"), ("value", "0")]
       (getEmptyDriverConfigVariable GLOBAL_VAR_GUID "KEK"),
     mkEvent h "Authorized signature database" "EV_EFI_VARIABLE_DRIVER_CONFIG" 0
       [("name", "db"), ("alias", "EFI_IMAGE_SECURITY_DATABASE"), ("value", "0")]
       (getEmptyDriverConfigVariable SECURITY_DB_GUID "db"),
     mkEvent h "Forbidden signature database" "EV_EFI_VARIABLE_DRIVER_CONFIG" 0
       [("name", "dbx"), ("alias", "EFI_IMAGE_SECURITY_DATABASE1"), ("value", "0")]
       (getEmptyDriverConfigVariable SECURITY_DB_GUID "dbx"),
     mkEvent h "Separator" "EV_SEPARATOR" 0 [] (List.replicate 4 0),
     mkEvent h "QEMU ACPI table loader" "EV_PLATFORM_CONFIG_FLAGS" 0
       [("fileName", "etc/table-loader")] tableLoader,
     mkEvent h "Root System Description Pointer (RSDP)" "EV_PLATFORM_CONFIG_FLAGS" 0
       [("fileName", "etc/acpi/rsdp")] (getRsdp acpiTables),
     mkEvent h "ACPI tables" "EV_PLATFORM_CONFIG_FLAGS" 0
       [("fileName", "etc/acpi/tables")] td.hardware.acpiTables])

/-- The (initrd, cmdline) pair measured into RTMR2: extracted from UKI
sections when the kernel is a UKI, otherwise taken from the software
configuration (with " initrd=initrd" appended when an initrd is given,
and the empty cmdline treated as absent, as JS string truthiness does). -/
def resolveInitrdCmdline (kernelPe : PortableExecutable) (isUki : Bool)
    (software : TdSoftware) : Option (List Nat) × Option String :=
  if isUki then
    ((kernelPe.sections.find? (fun s => s.name = ascii ".initrd\x00")).map (fun s => s.body),
     (kernelPe.sections.find? (fun s => s.name = ascii ".cmdline")).map
       (fun s => utf8DecodeAscii s.body))
  else
    (software.initrd,
     match software.cmdline with
     | some c =>
       if c = "" then none
       else some (c ++ (if software.initrd.isSome then " initrd=initrd" else ""))
     | none => none)

/-- The events emitted from the patched kernel onward.  Depends on the
trust domain only through the patched kernel bytes and the initrd and
cmdline of the software configuration. -/
def postPatchEvents (h : List Nat → List Nat) (initrd0 : Option (List Nat))
    (cmdline0 : Option String) (patchedKernel : List Nat) :
    Except String (List TdEvent) := do
  let kernelPe ← parsePe patchedKernel
  let linuxSection := kernelPe.sections.find? (fun s => s.name = ascii ".linux\x00\x00")
  let isUki := linuxSection.isSome
  let kernelPreimage ← getPeHashPreimage patchedKernel
  let ukiLinuxEvents ←
    match linuxSection with
    | some s => do
      let p ← getPeHashPreimage s.body
      pure [mkEvent h "Linux kernel" "EV_EFI_BOOT_SERVICES_APPLICATION" 1 [] p]
    | none => pure []
  let sw : TdSoftware := { kernel := patchedKernel, initrd := initrd0, cmdline := cmdline0 }
  let ic := resolveInitrdCmdline kernelPe isUki sw
  let cmdlineEvents :=
    match ic.2 with
    | some c =>
      [mkEvent h "Linux kernel command-line parameters" "EV_EVENT_TAG" 2
        [("cmdline", c), ("tagName", "LOADED_IMAGE::LoadOptions")]
        (utf16LeEncode (c ++ "\x00"))]
    | none => []
  let initrdEvents :=
    match ic.1 with
    | some i => [mkEvent h "Linux initial ramdisk" "EV_EVENT_TAG" 2 [] i]
    | none => []
  .ok ([mkEvent h (if isUki then "Linux unified kernel image" else "Linux kernel")
          "EV_EFI_BOOT_SERVICES_APPLICATION" 1 [] kernelPreimage,
        mkEvent h "BootOrder boot variable" "EV_EFI_VARIABLE_BOOT" 0 [] (List.replicate 2 0),
        mkEvent h "Boot0000 boot variable" "EV_EFI_VARIABLE_BOOT" 0 [] getUiAppBootOption,
        mkEvent h (EFI_ACTIONS.getD 0 "") "EV_EFI_ACTION" 1 []
          (ascii (EFI_ACTIONS.getD 0 "")),
        mkEvent h "Separator" "EV_SEPARATOR" 0 [] (List.replicate 4 0)] ++
    ukiLinuxEvents ++ cmdlineEvents ++ initrdEvents ++
    [mkEvent h (EFI_ACTIONS.getD 1 "") "EV_EFI_ACTION" 1 [] (ascii (EFI_ACTIONS.getD 1 "")),
     mkEvent h (EFI_ACTIONS.getD 2 "") "EV_EFI_ACTION" 1 [] (ascii (EFI_ACTIONS.getD 2 ""))])

/-- reproduceEvents: the full event list, together with the patched
kernel bytes (the source leaves them in td.software.kernel). -/
def reproduceEvents (h : List Nat → List Nat) (td : TrustDomain) :
    Except String (List TdEvent × List Nat) := do
  let pre ← preKernelEvents h td
  let patchedKernel ← qemuPatchKernel td.software td.hardware.totalMemoryBytes
  let post ← postPatchEvents h td.software.initrd td.software.cmdline patchedKernel
  .ok (pre ++ post, patchedKernel)

/-- The RTMR folder: registers start as 48 zero bytes and each event
extends its target register. -/
def foldRegisters (h : List Nat → List Nat) (events : List TdEvent) : List (List Nat) :=
  events.foldl
    (fun registers ev =>
      registers.set ev.register (h (concatBytes [registers.getD ev.register [], ev.digest])))
    (List.replicate 4 (List.replicate 48 0))

/-- reproduceRtmr: the folded registers and the event list. -/
def reproduceRtmr (h : List Nat → List Nat) (td : TrustDomain) : Except String RtmrResult := do
  let r ← reproduceEvents h td
  .ok { registers := foldRegisters h r.1, events := r.1 }

/-- reproduceRtmr with the in-place kernel mutation made explicit: also
returns the trust domain as it stands after the call (its kernel buffer
holds the patched bytes). -/
def reproduceRtmrWithState (h : List Nat → List Nat) (td : TrustDomain) :
    Except String (RtmrResult × TrustDomain) := do
  let r ← reproduceEvents h td
  .ok ({ registers := foldRegisters h r.1, events := r.1 },
       { td with software := { td.software with kernel := r.2 } })

/-! ## Concrete fixtures used to instantiate the theorems -/

/-- A trivial stand-in for the abstract SHA-384 parameter. -/
def h0 : List Nat → List Nat := fun _ => List.replicate 48 0

/-- A minimal PE32 image: 224 zero bytes with a DOS pointer to 0x40,
the PE signature, optional-header magic 0x10b, no sections,
sizeOfHeaders = 224 and numberOfRvaAndSizes = 0. -/
def kernel0 : List Nat :=
  writeBytes (writeBytes (writeBytes (writeBytes (writeBytes (List.replicate 224 0)
    0x3c (u32le 0x40)) 0x40 [0x50, 0x45, 0, 0]) 0x54 (u16le 96)) 0x58 (u16le 0x10b))
    0x94 (u32le 0xe0)

/-- A lone TD_HOB metadata section covering [0, 0x80). -/
def hobSec0 : TdxMetadataSection :=
  { rawOffset := 0, rawSize := 0, memBase := 0, memSize := 0x80,
    sectionType := "TD_HOB", extendMr := false }

/-- A minimal trust domain on which reproduceRtmr succeeds. -/
def td0 : TrustDomain :=
  { hardware := { totalMemoryBytes := 0x80, acpiTables := [] },
    firmware := { bytes := [], tdxMetadataSections := [hobSec0] },
    software := { kernel := kernel0, initrd := none, cmdline := none } }

/-- td0 as it stands after one reproduceRtmr call patched its kernel. -/
def td1 : TrustDomain :=
  match reproduceRtmrWithState h0 td0 with
  | .ok r => r.2
  | .error _ => td0

/-- The reproduction result of td0. -/
def rtmr0 : RtmrResult :=
  match reproduceRtmrWithState h0 td0 with
  | .ok r => r.1
  | .error _ => { registers := [], events := [] }

/-- The event list and patched kernel of the td0 run. -/
def eventsRun0 : List TdEvent × List Nat :=
  match reproduceEvents h0 td0 with
  | .ok r => r
  | .error _ => ([], [])

/-- A TD_HOB section reaching beyond a totalMemoryBytes of 0x1000: the
HOB walk then emits more ranges than the physical memory size. -/
def hobSecBad : TdxMetadataSection :=
  { rawOffset := 0, rawSize := 0, memBase := 0, memSize := 0x2000,
    sectionType := "TD_HOB", extendMr := false }

/-- A minimal ACPI blob holding a single RSDT table at offset 0. -/
def acpiBlob0 : List Nat := ascii "RSDT" ++ u32le 36 ++ List.replicate 28 0

/-- The table descriptor parseAcpiTables discovers in acpiBlob0. -/
def rsdtTable0 : AcpiTable := { signature := ascii "RSDT", offset := 0, length := 36 }

/-- A 48-byte firmware image carrying the footer UUID in the LAST 16
bytes of the 48-byte footer block (and zeros before). -/
def fwBad0 : List Nat :=
  List.replicate 32 0 ++ uuidToBytes "96b582de-1fb2-45f7-baea-a366c55a082d"

/-- A 48-byte firmware image carrying the footer UUID in the FIRST 16
bytes of the 48-byte footer block (and zeros after). -/
def fwGood0 : List Nat :=
  uuidToBytes "96b582de-1fb2-45f7-baea-a366c55a082d" ++ List.replicate 32 0

/-- An 8-byte ACPI blob whose single table declares length 0: the walk
reads signature "AAAA" and length 0 and never advances. -/
def acpiBadBlob : List Nat := [65, 65, 65, 65, 0, 0, 0, 0]

/-- True exactly on Except.ok. -/
def exceptIsOk {ε α : Type} : Except ε α → Bool
  | .ok _ => true
  | .error _ => false

/-- (imageSize, sumOfBytesHashed, certSize) of a PE image that parses. -/
def peBounds (bytes : List Nat) : Option (Nat × Nat × Nat) :=
  match parsePe bytes with
  | .ok pe => some (bytes.length, peSumOfBytesHashed pe.optionalHeader pe.sections,
      peCertSize bytes pe.optionalHeader)
  | .error _ => none

/-- A 224-byte PE32 with numberOfRvaAndSizes = 5, sizeOfHeaders = 224,
no sections, and a certificate-directory size of 16 at offset 0xDC:
imageSize (224) equals sumOfBytesHashed (224) while certSize is 16. -/
def pe0 : List Nat :=
  writeBytes (writeBytes (writeBytes (writeBytes (writeBytes (writeBytes (writeBytes
    (List.replicate 224 0)
    0x3c (u32le 0x40)) 0x40 [0x50, 0x45, 0, 0]) 0x54 (u16le 96)) 0x58 (u16le 0x10b))
    0x94 (u32le 0xe0)) 0xb4 (u32le 5)) 0xdc (u32le 16)

/-- pe0 extended by 8 trailing bytes: imageSize (232) now lies strictly
between sumOfBytesHashed (224) and sumOfBytesHashed + certSize (240). -/
def pe1 : List Nat := pe0 ++ List.replicate 8 0

/-- The optional-header facts of pe0 and pe1. -/
def pe1Header : PeOptionalHeader :=
  { sizeOfHeaders := 224, numberOfRvaAndSizes := 5, offset := 0x58,
    fixedOptionalHeaderSize := 96 }

/-- The parse of pe1 (and of pe0, whose bytes share the headers). -/
def pe1Parsed : PortableExecutable := { optionalHeader := pe1Header, sections := [] }

/-- The synthetic single-section firmware of the MRTD scenario S5:
one section with memBase = 0x1000, memSize = 0x1000, extendMr = false. -/
def mrtdFw0 : TdFirmware :=
  { bytes := [],
    tdxMetadataSections :=
      [{ rawOffset := 0, rawSize := 0, memBase := 0x1000, memSize := 0x1000,
         sectionType := "BFV", extendMr := false }] }

/-! ## Byte-buffer lemmas -/

theorem length_writeBytes (d : List Nat) (b : List Nat) (o : Nat) :
    (writeBytes b o d).length = b.length := by
  induction d generalizing b o with
  | nil => rfl
  | cons x xs ih => simp [writeBytes, ih]

theorem getElem?_writeBytes (d : List Nat) (b : List Nat) (o i : Nat) :
    (writeBytes b o d)[i]? =
      if o ≤ i ∧ i < o + d.length ∧ i < b.length then d[i - o]? else b[i]? := by
  induction d generalizing b o with
  | nil =>
    rw [if_neg (by simp only [List.length_nil]; omega)]
    rfl
  | cons x xs ih =>
    show (writeBytes (b.set o x) (o + 1) xs)[i]? = _
    rw [ih, List.length_set]
    by_cases h1 : o + 1 ≤ i ∧ i < o + 1 + xs.length ∧ i < b.length
    · rw [if_pos h1, if_pos (by simp only [List.length_cons]; omega)]
      have hio : i - o = (i - (o + 1)) + 1 := by omega
      rw [hio, List.getElem?_cons_succ]
    · rw [if_neg h1]
      by_cases h2 : o ≤ i ∧ i < o + (x :: xs).length ∧ i < b.length
      · rw [if_pos h2]
        simp only [List.length_cons] at h2
        have hio : i = o := by omega
        subst hio
        rw [List.getElem?_set_self h2.2.2, Nat.sub_self, List.getElem?_cons_zero]
      · rw [if_neg h2]
        by_cases h3 : o = i
        · subst h3
          simp only [List.length_cons] at h1 h2
          have : b.length ≤ o := by omega
          rw [List.set_eq_of_length_le this]
        · exact List.getElem?_set_ne h3

theorem getD_writeBytes_lt (d : List Nat) (b : List Nat) (o i : Nat) (h : i < o) :
    (writeBytes b o d).getD i 0 = b.getD i 0 := by
  simp only [List.getD_eq_getElem?_getD, getElem?_writeBytes]
  rw [if_neg (by omega)]

theorem getD_writeBytes_ge (d : List Nat) (b : List Nat) (o i : Nat)
    (h : o + d.length ≤ i) : (writeBytes b o d).getD i 0 = b.getD i 0 := by
  simp only [List.getD_eq_getElem?_getD, getElem?_writeBytes]
  rw [if_neg (by omega)]

theorem writeBytes_eq_take_append (d : List Nat) (b : List Nat) (o : Nat)
    (h : o + d.length ≤ b.length) :
    writeBytes b o d = b.take o ++ d ++ b.drop (o + d.length) := by
  apply List.ext_getElem?
  intro i
  rw [getElem?_writeBytes]
  rw [List.getElem?_append, List.getElem?_append]
  simp only [List.length_append, List.length_take]
  by_cases h1 : i < o
  · rw [if_neg (by omega), if_pos (by omega), if_pos (by omega),
      List.getElem?_take_of_lt h1]
  · by_cases h2 : i < o + d.length
    · rw [if_pos (by omega), if_pos (by omega), if_neg (by omega)]
      congr 1
      omega
    · rw [if_neg (by omega), if_neg (by omega), List.getElem?_drop]
      congr 1
      omega

/-! ## MRTD record layout -/

theorem memPageAddRecord_eq (addr : Nat) :
    memPageAddRecord addr =
      ascii "MEM.PAGE.ADD" ++ List.replicate 4 0 ++ u64le addr ++ List.replicate 104 0 := rfl

theorem memPageAddRecord_facts (addr : Nat) :
    (memPageAddRecord addr).length = 128 ∧
    (memPageAddRecord addr).take 12 = ascii "MEM.PAGE.ADD" ∧
    subarray (memPageAddRecord addr) 12 16 = List.replicate 4 0 ∧
    subarray (memPageAddRecord addr) 16 24 = u64le addr ∧
    (memPageAddRecord addr).drop 24 = List.replicate 104 0 :=
  ⟨rfl, rfl, rfl, rfl, rfl⟩

/-- C1: reproduceMrtd emits, for each metadata section in declared order
and for each 4096-byte page of memSize, a 128-byte MEM.PAGE.ADD record
(ASCII tag in bytes 0..12, zeros in bytes 12..16, memBase + i*4096 as LE
u64 at offset 16, zeros to 128) and returns SHA-384 (abstract h) of the
concatenation; the synthetic single-section firmware with memBase =
0x1000, memSize = 0x1000, extendMr = false hashes exactly one such
record, with LE u64 0x1000 at offset 16. -/
theorem c1_mrtd_page_records (h : List Nat → List Nat) (fw : TdFirmware) :
    reproduceMrtd h fw = h (mrtdPreimage fw) ∧
    mrtdPreimage fw =
      concatBytes (fw.tdxMetadataSections.flatMap (mrtdSectionParts fw.bytes)) ∧
    (∀ s ∈ fw.tdxMetadataSections, s.extendMr = false →
      mrtdSectionParts fw.bytes s =
        (List.range (s.memSize / PAGE_SIZE)).map
          (fun i => memPageAddRecord (s.memBase + i * PAGE_SIZE))) ∧
    (∀ addr : Nat,
      (memPageAddRecord addr).length = 128 ∧
      (memPageAddRecord addr).take 12 = ascii "MEM.PAGE.ADD" ∧
      subarray (memPageAddRecord addr) 12 16 = List.replicate 4 0 ∧
      subarray (memPageAddRecord addr) 16 24 = u64le addr ∧
      (memPageAddRecord addr).drop 24 = List.replicate 104 0) ∧
    reproduceMrtd h mrtdFw0 = h (memPageAddRecord 0x1000) := by
  refine ⟨rfl, rfl, ?_, memPageAddRecord_facts, ?_⟩
  · intro s _ hext
    simp [mrtdSectionParts, hext]
  · show h (mrtdPreimage mrtdFw0) = _
    congr 1

/-! ## HOB coverage -/

theorem entriesCover_sum (es : List (Nat × Nat × Nat)) (m e : Nat)
    (h : entriesCover m e es) :
    ((es.map (fun x => x.2.1 - x.1)).sum = e - m) ∧ m ≤ e := by
  induction es generalizing m with
  | nil =>
    subst h
    simp
  | cons x rest ih =>
    obtain ⟨h1, h2, h3⟩ := h
    obtain ⟨ihs, ihle⟩ := ih _ h3
    subst h1
    refine ⟨?_, by omega⟩
    simp only [List.map_cons, List.sum_cons, ihs]
    omega

theorem entriesCover_append_gap (es : List (Nat × Nat × Nat)) (m e e2 : Nat)
    (h : entriesCover m e es) (hle : e ≤ e2) :
    entriesCover m e2 (es ++ [(e, e2, 0)]) := by
  induction es generalizing m with
  | nil =>
    subst h
    exact ⟨rfl, hle, rfl⟩
  | cons x rest ih =>
    obtain ⟨h1, h2, h3⟩ := h
    exact ⟨h1, h2, ih _ h3⟩

theorem hobEntriesGo_props (l : List TdxMetadataSection) (m : Nat)
    (hch : hobChainedFrom m l = true) :
    (hobEntriesGo m l).2 = hobEnd m l ∧
    entriesCover m (hobEnd m l) (hobEntriesGo m l).1 ∧
    ((hobEntriesGo m l).1.filter (fun e => e.2.2 == 1)) =
      l.map (fun s => (s.memBase, s.memBase + s.memSize, 1)) ∧
    (∀ e ∈ (hobEntriesGo m l).1, e.2.2 = 0 ∨ e.2.2 = 1) := by
  induction l generalizing m with
  | nil => exact ⟨rfl, rfl, rfl, by simp [hobEntriesGo]⟩
  | cons s rest ih =>
    simp only [hobChainedFrom, Bool.and_eq_true, decide_eq_true_eq] at hch
    obtain ⟨hm, hrest⟩ := hch
    obtain ⟨ih1, ih2, ih3, ih4⟩ := ih (s.memBase + s.memSize) hrest
    refine ⟨?_, ?_, ?_, ?_⟩
    · simpa only [hobEntriesGo, hobEnd] using ih1
    · show entriesCover m (hobEnd (s.memBase + s.memSize) rest) _
      by_cases hgap : s.memBase > m
      · simp only [hobEntriesGo, if_pos hgap, List.cons_append, List.nil_append]
        exact ⟨rfl, Nat.le_of_lt hgap, rfl, Nat.le_add_right _ _, ih2⟩
      · have hbase : s.memBase = m := by omega
        simp only [hobEntriesGo, if_neg hgap, List.nil_append]
        exact ⟨hbase, hbase ▸ Nat.le_add_right _ _, hbase ▸ ih2⟩
    · by_cases hgap : s.memBase > m
      · simp only [hobEntriesGo, if_pos hgap, List.cons_append, List.nil_append,
          List.filter_cons, List.map_cons]
        simpa using ih3
      · simp only [hobEntriesGo, if_neg hgap, List.nil_append, List.filter_cons,
          List.map_cons]
        simpa using ih3
    · intro e he
      by_cases hgap : s.memBase > m
      · simp only [hobEntriesGo, if_pos hgap, List.cons_append, List.nil_append,
          List.mem_cons] at he
        rcases he with h | h | h
        · left; rw [h]
        · right; rw [h]
        · exact ih4 e h
      · simp only [hobEntriesGo, if_neg hgap, List.nil_append, List.mem_cons] at he
        rcases he with h | h
        · right; rw [h]
        · exact ih4 e h

/-- C4 (amended): when the TD_HOB and TempMem sections, sorted by
memBase, are pairwise disjoint and end at or before totalMemoryBytes,
the ranges emitted by the HOB builder tile [0, totalMemoryBytes) exactly
(contiguous, non-overlapping), the sum of their lengths equals
totalMemoryBytes, the ranges marked reserved (resourceType 0x00000000)
are exactly the sorted TD_HOB and TempMem sections, and every other
emitted range is an unclaimed gap marked system-memory (0x00000007).
Without the disjointness/bound hypotheses the unconditional claim is
false (see the counterexample). -/
theorem c4_hob_coverage (sections : List TdxMetadataSection) (total : Nat)
    (hhob : (sections.find? (fun s => s.sectionType = "TD_HOB")).isSome = true)
    (hch : hobChainedFrom 0 (hobReservedSorted sections) = true)
    (hend : hobEnd 0 (hobReservedSorted sections) ≤ total) :
    entriesCover 0 total (hobEntries sections total) ∧
    ((hobEntries sections total).map (fun e => e.2.1 - e.1)).sum = total ∧
    ((hobEntries sections total).filter (fun e => e.2.2 == 1)) =
      (hobReservedSorted sections).map (fun s => (s.memBase, s.memBase + s.memSize, 1)) ∧
    (∀ e ∈ hobEntries sections total,
      (e.2.2 = 1 ∧ resourceTypeOfKind e.2.2 = 0x00000000) ∨
      (e.2.2 = 0 ∧ resourceTypeOfKind e.2.2 = 0x00000007)) := by
  obtain ⟨p1, p2, p3, p4⟩ := hobEntriesGo_props (hobReservedSorted sections) 0 hch
  have hcover : entriesCover 0 total (hobEntries sections total) := by
    unfold hobEntries
    by_cases hlt : (hobEntriesGo 0 (hobReservedSorted sections)).2 < total
    · simp only [if_pos hlt]
      rw [p1] at hlt ⊢
      exact entriesCover_append_gap _ _ _ _ p2 (Nat.le_of_lt hlt)
    · simp only [if_neg hlt, List.append_nil]
      rw [p1] at hlt
      have : hobEnd 0 (hobReservedSorted sections) = total := by omega
      exact this ▸ p2
  refine ⟨hcover, ?_, ?_, ?_⟩
  · have := (entriesCover_sum _ _ _ hcover).1
    simpa using this
  · unfold hobEntries
    by_cases hlt : (hobEntriesGo 0 (hobReservedSorted sections)).2 < total
    · simp only [if_pos hlt, List.filter_append, p3]
      simp
    · simp only [if_neg hlt, List.append_nil, List.filter_append, p3]
  · intro e he
    unfold hobEntries at he
    have hkind : e.2.2 = 0 ∨ e.2.2 = 1 := by
      by_cases hlt : (hobEntriesGo 0 (hobReservedSorted sections)).2 < total
      · simp only [if_pos hlt, List.mem_append, List.mem_singleton] at he
        rcases he with h | h
        · exact p4 e h
        · left; rw [h]
      · simp only [if_neg hlt, List.append_nil] at he
        exact p4 e he
    rcases hkind with h | h
    · right; exact ⟨h, by simp [resourceTypeOfKind, h]⟩
    · left; exact ⟨h, by simp [resourceTypeOfKind, h]⟩

/-- C4 counterexample: for the section list [hobSecBad] (which contains
a TD_HOB section) and totalMemoryBytes = 0x1000, the sum of the emitted
range lengths is 0x2000, not 0x1000, refuting the unconditional claim. -/
theorem c4_counterexample :
    hobSecBad.sectionType = "TD_HOB" ∧
    ((hobEntries [hobSecBad] 0x1000).map (fun e => e.2.1 - e.1)).sum = 0x2000 ∧
    ((hobEntries [hobSecBad] 0x1000).map (fun e => e.2.1 - e.1)).sum ≠ 0x1000 := by
  refine ⟨rfl, by decide, by decide⟩

/-- C4 witness: the amended theorem applied to the single-TD_HOB fixture
with totalMemoryBytes = 0x1000. -/
theorem c4_witness :
    ((hobSec0 :: []).find? (fun s => s.sectionType = "TD_HOB")).isSome = true ∧
    hobChainedFrom 0 (hobReservedSorted [hobSec0]) = true ∧
    hobEnd 0 (hobReservedSorted [hobSec0]) ≤ 0x1000 ∧
    ((hobEntries [hobSec0] 0x1000).map (fun e => e.2.1 - e.1)).sum = 0x1000 :=
  ⟨by decide, by decide, by decide,
   (c4_hob_coverage [hobSec0] 0x1000 (by decide) (by decide) (by decide)).2.1⟩

/-! ## RSDP shape -/

/-- C8 (amended): for a table list whose first table is RSDT at offset
0, the 20-byte RSDP preimage has "RSD PTR " in bytes 0..8, 0 at byte 8,
"BOCHS " (with a trailing space, not a NUL, at byte 14) in bytes 9..15,
0 at byte 15, and zeros in bytes 16..20.  The claim's "BOCHS\x00" in
bytes 9..15 is refuted by the counterexample: byte 14 is 0x20 and the
OEM-ID NUL sits at byte 15. -/
theorem c8_rsdp_shape (tables : List AcpiTable) (t0 : AcpiTable)
    (hhead : tables.head? = some t0) (hsig : t0.signature = ascii "RSDT")
    (hoff : t0.offset = 0) :
    getRsdp tables = rsdpFor 0 ∧
    (getRsdp tables).length = 20 ∧
    (getRsdp tables).take 8 = ascii "RSD PTR " ∧
    (getRsdp tables).getD 8 0 = 0 ∧
    subarray (getRsdp tables) 9 15 = ascii "BOCHS " ∧
    (getRsdp tables).getD 15 0 = 0 ∧
    subarray (getRsdp tables) 16 20 = [0, 0, 0, 0] := by
  cases tables with
  | nil => simp at hhead
  | cons t rest =>
    simp only [List.head?_cons, Option.some.injEq] at hhead
    subst hhead
    have heq : getRsdp (t :: rest) = rsdpFor 0 := by
      unfold getRsdp
      rw [List.find?_cons_of_pos _ (by simp [hsig])]
      simp [hoff]
    rw [heq]
    exact ⟨rfl, by decide, by decide, by decide, by decide, by decide, by decide⟩

/-- C8 counterexample: the blob with a single RSDT table at offset 0
yields an RSDP preimage whose bytes 9..15 are "BOCHS " (0x20 at byte
14), not "BOCHS\x00" as the claim states. -/
theorem c8_counterexample :
    parseAcpiTables acpiBlob0 = some [rsdtTable0] ∧
    subarray (getRsdp [rsdtTable0]) 9 15 ≠ ascii "BOCHS\x00" :=
  ⟨by decide, by decide⟩

/-- C8 witness: the amended theorem applied to the single-RSDT table
list. -/
theorem c8_witness :
    [rsdtTable0].head? = some rsdtTable0 ∧
    rsdtTable0.signature = ascii "RSDT" ∧
    rsdtTable0.offset = 0 ∧
    subarray (getRsdp [rsdtTable0]) 9 15 = ascii "BOCHS " :=
  ⟨rfl, rfl, rfl, (c8_rsdp_shape [rsdtTable0] rsdtTable0 rfl rfl rfl).2.2.2.2.1⟩

/-! ## Firmware footer GUID check -/

theorem getD_take_of_lt (l : List Nat) (n i : Nat) (h : i < n) :
    (l.take n).getD i 0 = l.getD i 0 := by
  simp only [List.getD_eq_getElem?_getD, List.getElem?_take_of_lt h]

theorem bytesToUuid_take (b : List Nat) (n : Nat) (h : 16 ≤ n) :
    bytesToUuid (b.take n) = bytesToUuid b := by
  unfold bytesToUuid getU32leD getU16leD getU16beD getU32beD
  rw [getD_take_of_lt _ _ _ (by omega), getD_take_of_lt _ _ _ (by omega),
    getD_take_of_lt _ _ _ (by omega), getD_take_of_lt _ _ _ (by omega),
    getD_take_of_lt _ _ _ (by omega), getD_take_of_lt _ _ _ (by omega),
    getD_take_of_lt _ _ _ (by omega), getD_take_of_lt _ _ _ (by omega),
    getD_take_of_lt _ _ _ (by omega), getD_take_of_lt _ _ _ (by omega),
    getD_take_of_lt _ _ _ (by omega), getD_take_of_lt _ _ _ (by omega),
    getD_take_of_lt _ _ _ (by omega), getD_take_of_lt _ _ _ (by omega),
    getD_take_of_lt _ _ _ (by omega), getD_take_of_lt _ _ _ (by omega)]

/-- C5 (amended): for a firmware of at least 48 bytes, parse_firmware
rejects with "Wrong table footer guid" exactly when the FIRST 16 bytes
of the trailing 48-byte footer block (bytes [len-0x30, len-0x20)) do
not decode, mixed-endian, to 96b582de-1fb2-45f7-baea-a366c55a082d, and
proceeds to metadata parsing exactly when they do.  The claim's "last
16 bytes of the footer" is refuted by the counterexample. -/
theorem c5_footer_guid (fw : List Nat) (hlen : 0x30 ≤ fw.length) :
    (bytesToUuid (subarray fw (fw.length - 0x30) (fw.length - 0x30 + 16)) ≠
        "96b582de-1fb2-45f7-baea-a366c55a082d" →
      getTdxMetadataSections fw = .error "Wrong table footer guid") ∧
    (bytesToUuid (subarray fw (fw.length - 0x30) (fw.length - 0x30 + 16)) =
        "96b582de-1fb2-45f7-baea-a366c55a082d" →
      getTdxMetadataSections fw = tdxMetadataParseBody fw) := by
  have hsub : bytesToUuid (subarray fw (fw.length - 0x30) (fw.length - 0x30 + 16)) =
      bytesToUuid (fw.drop (fw.length - 0x30)) := by
    have h1 : subarray fw (fw.length - 0x30) (fw.length - 0x30 + 16) =
        (fw.drop (fw.length - 0x30)).take 16 := by
      unfold subarray
      congr 1
      omega
    rw [h1, bytesToUuid_take _ 16 (by omega)]
  rw [hsub]
  constructor
  · intro hne
    unfold getTdxMetadataSections
    rw [if_pos hne]
  · intro he
    unfold getTdxMetadataSections
    rw [if_neg (by simp [he])]

/-- C5 counterexample: a 48-byte firmware whose LAST 16 footer bytes
hold the mixed-endian footer UUID is nevertheless rejected, because the
code checks the first 16 bytes of the footer block. -/
theorem c5_counterexample :
    subarray fwBad0 (fwBad0.length - 16) fwBad0.length =
      uuidToBytes "96b582de-1fb2-45f7-baea-a366c55a082d" ∧
    bytesToUuid (subarray fwBad0 (fwBad0.length - 16) fwBad0.length) =
      "96b582de-1fb2-45f7-baea-a366c55a082d" ∧
    getTdxMetadataSections fwBad0 = .error "Wrong table footer guid" :=
  ⟨by decide, by decide, by decide⟩

/-- C5 witness: the amended theorem applied to a firmware whose first
16 footer bytes hold the footer UUID. -/
theorem c5_witness :
    0x30 ≤ fwGood0.length ∧
    bytesToUuid (subarray fwGood0 (fwGood0.length - 0x30) (fwGood0.length - 0x30 + 16)) =
      "96b582de-1fb2-45f7-baea-a366c55a082d" ∧
    getTdxMetadataSections fwGood0 = tdxMetadataParseBody fwGood0 :=
  ⟨by decide, by decide, (c5_footer_guid fwGood0 (by decide)).2 (by decide)⟩

/-! ## ACPI walk termination -/

theorem parseAcpiTablesGo_zero_length (bytes : List Nat) (o : Nat)
    (h1 : o < bytes.length) (h2 : ¬ o + 8 > bytes.length)
    (h3 : ¬ subarray bytes o (o + 4) = [0, 0, 0, 0])
    (h4 : getU32leD bytes (o + 4) = 0) :
    ∀ fuel acc, parseAcpiTablesGo bytes fuel o acc = none := by
  intro fuel
  induction fuel with
  | zero => intro acc; rfl
  | succ n ih =>
    intro acc
    unfold parseAcpiTablesGo
    rw [if_pos h1, if_neg h2, if_neg h3, h4]
    simpa using ih _

theorem parseAcpiTablesGo_fuel_bound (bytes : List Nat) :
    ∀ fuel o acc r, parseAcpiTablesGo bytes fuel o acc = some r →
      ∀ fuel2, bytes.length - o < fuel2 → parseAcpiTablesGo bytes fuel2 o acc = some r := by
  intro fuel
  induction fuel with
  | zero => intro o acc r hr; cases hr
  | succ n ih =>
    intro o acc r hr fuel2 hf2
    have hf2pos : ∃ m, fuel2 = m + 1 := ⟨fuel2 - 1, by omega⟩
    obtain ⟨m, rfl⟩ := hf2pos
    unfold parseAcpiTablesGo at hr ⊢
    by_cases h1 : o < bytes.length
    · rw [if_pos h1] at hr ⊢
      by_cases h2 : o + 8 > bytes.length
      · rwa [if_pos h2] at hr ⊢
      · rw [if_neg h2] at hr ⊢
        by_cases h3 : subarray bytes o (o + 4) = [0, 0, 0, 0]
        · rwa [if_pos h3] at hr ⊢
        · rw [if_neg h3] at hr ⊢
          by_cases h4 : getU32leD bytes (o + 4) = 0
          · exfalso
            rw [h4] at hr
            simp only [Nat.add_zero] at hr
            rw [parseAcpiTablesGo_zero_length bytes o h1 h2 h3 h4 n _] at hr
            cases hr
          · exact ih _ _ _ hr m (by omega)
    · rwa [if_neg h1] at hr ⊢

/-- C10 (amended): the ACPI walk does not terminate on every input — a
table whose 4-byte LE length reads 0 keeps the offset in place and the
loop never reaches a stop condition (see the counterexample) — but
whenever the walk reaches a stop condition with any amount of fuel, it
does so within bytes.length + 1 iterations, which is exactly the fuel
parseAcpiTables runs with. -/
theorem c10_acpi_walk_termination (bytes : List Nat) (r : List AcpiTable)
    (h : ∃ fuel, parseAcpiTablesGo bytes fuel 0 [] = some r) :
    parseAcpiTables bytes = some r := by
  obtain ⟨fuel, hf⟩ := h
  exact parseAcpiTablesGo_fuel_bound bytes fuel 0 [] r hf (bytes.length + 1) (by omega)

/-- C10 counterexample: on the blob "AAAA" ++ u32le(0) the walk never
reaches a stop condition, however many steps it is allowed: the claim
that the parser always stops after finitely many steps is false. -/
theorem c10_counterexample :
    (¬ ∃ fuel, (parseAcpiTablesGo acpiBadBlob fuel 0 []).isSome = true) ∧
    parseAcpiTables acpiBadBlob = none := by
  constructor
  · rintro ⟨fuel, hf⟩
    rw [parseAcpiTablesGo_zero_length acpiBadBlob 0 (by decide) (by decide) (by decide)
      (by decide) fuel []] at hf
    cases hf
  · exact parseAcpiTablesGo_zero_length acpiBadBlob 0 (by decide) (by decide) (by decide)
      (by decide) _ []

/-- C10 witness: the amended theorem applied to the single-RSDT blob,
whose walk stops after one step. -/
theorem c10_witness :
    (∃ fuel, parseAcpiTablesGo acpiBlob0 fuel 0 [] = some [rsdtTable0]) ∧
    parseAcpiTables acpiBlob0 = some [rsdtTable0] :=
  ⟨⟨2, by decide⟩, c10_acpi_walk_termination acpiBlob0 [rsdtTable0] ⟨2, by decide⟩⟩

/-! ## Kernel patching independence from large RAM sizes -/

/-- C7: for any kernel buffer, cmdline and optional initrd, patching
with totalMemoryBytes = R and with totalMemoryBytes = R2, both at least
0xB0000000, yields identical patched bytes and the same
success-or-error outcome: above that bound below4gMemSize is the
constant 0x80000000, the only way the patcher reads the RAM size. -/
theorem c7_patch_ram_independence (software : TdSoftware) (r r2 : Nat)
    (h1 : r ≥ 0xb0000000) (h2 : r2 ≥ 0xb0000000) :
    qemuPatchKernel software r = qemuPatchKernel software r2 := by
  simp only [qemuPatchKernel]
  rw [if_pos h1, if_pos h2, if_pos (show r ≥ 0x80000000 by omega),
    if_pos (show r2 ≥ 0x80000000 by omega)]

/-- C7 witness: the theorem applied to the td0 software at two RAM
sizes at or above 0xB0000000. -/
theorem c7_witness :
    (0xb0000000 : Nat) ≥ 0xb0000000 ∧ (0xc0000000 : Nat) ≥ 0xb0000000 ∧
    qemuPatchKernel td0.software 0xb0000000 = qemuPatchKernel td0.software 0xc0000000 :=
  ⟨by decide, by decide, c7_patch_ram_independence td0.software _ _ (by decide) (by decide)⟩

/-! ## PE size check -/

theorem exceptOkBind {ε α β : Type} (a : α) (f : α → Except ε β) :
    (Except.ok a : Except ε α) >>= f = f a := rfl

theorem exceptErrorBind {ε α β : Type} (e : ε) (f : α → Except ε β) :
    (Except.error e : Except ε α) >>= f = Except.error e := rfl

/-- C6 (amended): for a PE that parses and whose header hash parts are
computed, the Authenticode-style preimage computation fails with the
size error exactly when sumOfBytesHashed < imageSize < sumOfBytesHashed
+ certSize.  When imageSize ≤ sumOfBytesHashed the computation succeeds
even if imageSize < sumOfBytesHashed + certSize, refuting the claim's
"fails whenever imageSize < sumOfBytesHashed + certSize" (see the
counterexample, where imageSize = sumOfBytesHashed and certSize = 16). -/
theorem c6_pe_size_check (bytes : List Nat) (pe : PortableExecutable)
    (hparse : parsePe bytes = .ok pe)
    (hp : ∃ parts, peHeaderHashParts bytes pe.optionalHeader = .ok parts) :
    getPeHashPreimage bytes =
        .error "Unsupported: File size is less than SUM_OF_BYTES_HASHED + CertSize." ↔
      (peSumOfBytesHashed pe.optionalHeader pe.sections < bytes.length ∧
       bytes.length < peSumOfBytesHashed pe.optionalHeader pe.sections +
         peCertSize bytes pe.optionalHeader) := by
  obtain ⟨parts, hparts⟩ := hp
  unfold getPeHashPreimage
  rw [hparse]
  simp only [exceptOkBind, exceptErrorBind]
  rw [hparts]
  simp only [exceptOkBind, exceptErrorBind]
  by_cases hgt : bytes.length > peSumOfBytesHashed pe.optionalHeader pe.sections
  · rw [if_pos hgt]
    by_cases hgt2 : bytes.length >
        peSumOfBytesHashed pe.optionalHeader pe.sections + peCertSize bytes pe.optionalHeader
    · rw [if_pos hgt2]
      constructor
      · intro hc
        exact Except.noConfusion hc
      · intro hc
        omega
    · rw [if_neg hgt2]
      by_cases hlt : bytes.length <
          peSumOfBytesHashed pe.optionalHeader pe.sections + peCertSize bytes pe.optionalHeader
      · rw [if_pos hlt]
        exact iff_of_true rfl ⟨hgt, hlt⟩
      · rw [if_neg hlt]
        constructor
        · intro hc
          exact Except.noConfusion hc
        · intro hc
          omega
  · rw [if_neg hgt]
    constructor
    · intro hc
      exact Except.noConfusion hc
    · intro hc
      omega

/-- C6 counterexample: pe0 parses with imageSize = 224,
sumOfBytesHashed = 224 and certSize = 16, so imageSize <
sumOfBytesHashed + certSize, yet the preimage computation succeeds:
the failure check sits inside the imageSize > sumOfBytesHashed branch. -/
theorem c6_counterexample :
    peBounds pe0 = some (224, 224, 16) ∧
    (224 : Nat) < 224 + 16 ∧
    exceptIsOk (getPeHashPreimage pe0) = true :=
  ⟨by decide, by decide, by decide⟩

/-- C6 witness: the amended theorem applied to pe1, where imageSize 232
lies strictly between 224 and 240 and the computation fails. -/
theorem c6_witness :
    parsePe pe1 = .ok pe1Parsed ∧
    getPeHashPreimage pe1 =
      .error "Unsupported: File size is less than SUM_OF_BYTES_HASHED + CertSize." :=
  ⟨by decide,
   (c6_pe_size_check pe1 pe1Parsed (by decide)
     ⟨[pe1.take 0x98, subarray pe1 0x9c 0xd8, subarray pe1 0xe0 224], by decide⟩).mpr
     (by decide)⟩

/-! ## Event-list shape lemmas -/

theorem exceptBindOkInv {ε α β : Type} (x : Except ε α) (f : α → Except ε β) (b : β)
    (h : (x >>= f) = .ok b) : ∃ a, x = .ok a ∧ f a = .ok b := by
  cases x with
  | ok a => exact ⟨a, rfl, h⟩
  | error e => exact Except.noConfusion h

theorem exceptPureBind {ε α β : Type} (a : α) (f : α → Except ε β) :
    (pure a : Except ε α) >>= f = f a := rfl

theorem mkEvent_name_implies {α : Prop} (h : List Nat → List Nat) (n t : String)
    (r : Nat) (md : List (String × String)) (p : List Nat) (m : String) (hne : ¬ n = m) :
    (mkEvent h n t r md p).name = m → α := fun hn => absurd hn hne

theorem preKernelEvents_shape (h : List Nat → List Nat) (td : TrustDomain)
    (evs : List TdEvent) (hok : preKernelEvents h td = .ok evs) :
    ∀ ev ∈ evs,
      ev.register = 0 ∧
      (ev.name = "Secure boot mode" →
        ev.digest = h (getEmptyDriverConfigVariable GLOBAL_VAR_GUID "SecureBoot")) := by
  unfold preKernelEvents at hok
  cases hhob : getHobHashPreimage td.firmware.tdxMetadataSections
      td.hardware.totalMemoryBytes with
  | error e =>
    rw [hhob] at hok
    rw [exceptErrorBind] at hok
    exact Except.noConfusion hok
  | ok hob =>
    rw [hhob] at hok
    rw [exceptOkBind] at hok
    cases hacpi : parseAcpiTables td.hardware.acpiTables with
    | none =>
      rw [hacpi] at hok
      simp only [exceptErrorBind] at hok
      exact Except.noConfusion hok
    | some tables =>
      rw [hacpi] at hok
      simp only [exceptOkBind, exceptErrorBind, exceptPureBind] at hok
      cases htl : getTableLoader tables with
      | error e =>
        rw [htl] at hok
        simp only [exceptErrorBind] at hok
        exact Except.noConfusion hok
      | ok tl =>
        rw [htl] at hok
        simp only [exceptOkBind] at hok
        injection hok with hok
        subst hok
        intro ev hev
        simp only [List.mem_append, List.mem_cons, List.mem_singleton,
          List.not_mem_nil, or_false] at hev
        rcases hev with (rfl | hcfv) | rfl | rfl | rfl | rfl | rfl | rfl | rfl | rfl | rfl
        · exact ⟨rfl, mkEvent_name_implies h _ _ _ _ _ _ (by decide)⟩
        · obtain ⟨sec, _, hf⟩ := List.mem_filterMap.mp hcfv
          by_cases hc : sec.sectionType = "CFV"
          · rw [if_pos hc] at hf
            injection hf with hf
            subst hf
            exact ⟨rfl, mkEvent_name_implies h _ _ _ _ _ _ (by decide)⟩
          · rw [if_neg hc] at hf
            exact Option.noConfusion hf
        · exact ⟨rfl, fun _ => rfl⟩
        · exact ⟨rfl, mkEvent_name_implies h _ _ _ _ _ _ (by decide)⟩
        · exact ⟨rfl, mkEvent_name_implies h _ _ _ _ _ _ (by decide)⟩
        · exact ⟨rfl, mkEvent_name_implies h _ _ _ _ _ _ (by decide)⟩
        · exact ⟨rfl, mkEvent_name_implies h _ _ _ _ _ _ (by decide)⟩
        · exact ⟨rfl, mkEvent_name_implies h _ _ _ _ _ _ (by decide)⟩
        · exact ⟨rfl, mkEvent_name_implies h _ _ _ _ _ _ (by decide)⟩
        · exact ⟨rfl, mkEvent_name_implies h _ _ _ _ _ _ (by decide)⟩
        · exact ⟨rfl, mkEvent_name_implies h _ _ _ _ _ _ (by decide)⟩

theorem mem_option_singleton {α β : Type} (o : Option α) (f : α → β) (ev : β)
    (hev : ev ∈ (match o with | some c => [f c] | none => ([] : List β))) :
    ∃ c, o = some c ∧ ev = f c := by
  cases o with
  | none => simp at hev
  | some c =>
    simp only [List.mem_singleton] at hev
    exact ⟨c, rfl, hev⟩

theorem postPatchEvents_shape (h : List Nat → List Nat) (i0 : Option (List Nat))
    (c0 : Option String) (k : List Nat) (evs : List TdEvent)
    (hok : postPatchEvents h i0 c0 k = .ok evs) :
    ∀ ev ∈ evs, ¬ ev.name = "Secure boot mode" ∧
      (ev.register = 0 ∨ ev.register = 1 ∨ ev.register = 2) := by
  unfold postPatchEvents at hok
  cases hpe : parsePe k with
  | error e =>
    rw [hpe] at hok
    rw [exceptErrorBind] at hok
    exact Except.noConfusion hok
  | ok pe =>
    rw [hpe] at hok
    rw [exceptOkBind] at hok
    cases hkp : getPeHashPreimage k with
    | error e =>
      rw [hkp] at hok
      simp only [exceptErrorBind] at hok
      exact Except.noConfusion hok
    | ok kp =>
      rw [hkp] at hok
      simp only [exceptOkBind] at hok
      cases hls : pe.sections.find? (fun s => s.name = ascii ".linux\x00\x00") with
      | none =>
        rw [hls] at hok
        simp only [exceptPureBind, Option.isSome_none, Bool.false_eq_true, if_false] at hok
        injection hok with hok
        subst hok
        intro ev hev
        simp only [List.mem_append, List.mem_cons, List.not_mem_nil, or_false,
          List.nil_append, List.append_assoc] at hev
        rcases hev with (rfl | rfl | rfl | rfl | rfl) | hev
        · exact ⟨mkEvent_name_implies h _ _ _ _ _ _ (by decide), Or.inr (Or.inl rfl)⟩
        · exact ⟨mkEvent_name_implies h _ _ _ _ _ _ (by decide), Or.inl rfl⟩
        · exact ⟨mkEvent_name_implies h _ _ _ _ _ _ (by decide), Or.inl rfl⟩
        · exact ⟨mkEvent_name_implies h _ _ _ _ _ _ (by decide), Or.inr (Or.inl rfl)⟩
        · exact ⟨mkEvent_name_implies h _ _ _ _ _ _ (by decide), Or.inl rfl⟩
        · rcases hev with hev | hev | rfl | rfl
          · cases hopt : (resolveInitrdCmdline pe false { kernel := k, initrd := i0, cmdline := c0 }).2 with
            | none =>
              rw [hopt] at hev
              simp at hev
            | some c =>
              rw [hopt] at hev
              simp only [List.mem_singleton] at hev
              subst hev
              exact ⟨mkEvent_name_implies h _ _ _ _ _ _ (by decide), Or.inr (Or.inr rfl)⟩
          · cases hopt : (resolveInitrdCmdline pe false { kernel := k, initrd := i0, cmdline := c0 }).1 with
            | none =>
              rw [hopt] at hev
              simp at hev
            | some c =>
              rw [hopt] at hev
              simp only [List.mem_singleton] at hev
              subst hev
              exact ⟨mkEvent_name_implies h _ _ _ _ _ _ (by decide), Or.inr (Or.inr rfl)⟩
          · exact ⟨mkEvent_name_implies h _ _ _ _ _ _ (by decide), Or.inr (Or.inl rfl)⟩
          · exact ⟨mkEvent_name_implies h _ _ _ _ _ _ (by decide), Or.inr (Or.inl rfl)⟩
      | some s =>
        rw [hls] at hok
        simp only [Option.isSome_some, eq_self_iff_true, ite_true] at hok
        cases hpl : getPeHashPreimage s.body with
        | error e =>
          rw [hpl] at hok
          simp only [exceptErrorBind, exceptOkBind, exceptPureBind] at hok
          exact Except.noConfusion hok
        | ok pl =>
          rw [hpl] at hok
          simp only [exceptErrorBind, exceptOkBind, exceptPureBind, Option.isSome_some,
            if_true] at hok
          injection hok with hok
          subst hok
          intro ev hev
          simp only [List.mem_append, List.mem_cons, List.not_mem_nil, or_false,
            List.nil_append, List.append_assoc] at hev
          rcases hev with (rfl | rfl | rfl | rfl | rfl) | hev
          · exact ⟨mkEvent_name_implies h _ _ _ _ _ _ (by decide), Or.inr (Or.inl rfl)⟩
          · exact ⟨mkEvent_name_implies h _ _ _ _ _ _ (by decide), Or.inl rfl⟩
          · exact ⟨mkEvent_name_implies h _ _ _ _ _ _ (by decide), Or.inl rfl⟩
          · exact ⟨mkEvent_name_implies h _ _ _ _ _ _ (by decide), Or.inr (Or.inl rfl)⟩
          · exact ⟨mkEvent_name_implies h _ _ _ _ _ _ (by decide), Or.inl rfl⟩
          · rcases hev with rfl | hev | hev | rfl | rfl
            · exact ⟨mkEvent_name_implies h _ _ _ _ _ _ (by decide), Or.inr (Or.inl rfl)⟩
            · cases hopt : (resolveInitrdCmdline pe true { kernel := k, initrd := i0, cmdline := c0 }).2 with
              | none =>
                rw [hopt] at hev
                simp at hev
              | some c =>
                rw [hopt] at hev
                simp only [List.mem_singleton] at hev
                subst hev
                exact ⟨mkEvent_name_implies h _ _ _ _ _ _ (by decide), Or.inr (Or.inr rfl)⟩
            · cases hopt : (resolveInitrdCmdline pe true { kernel := k, initrd := i0, cmdline := c0 }).1 with
              | none =>
                rw [hopt] at hev
                simp at hev
              | some c =>
                rw [hopt] at hev
                simp only [List.mem_singleton] at hev
                subst hev
                exact ⟨mkEvent_name_implies h _ _ _ _ _ _ (by decide), Or.inr (Or.inr rfl)⟩
            · exact ⟨mkEvent_name_implies h _ _ _ _ _ _ (by decide), Or.inr (Or.inl rfl)⟩
            · exact ⟨mkEvent_name_implies h _ _ _ _ _ _ (by decide), Or.inr (Or.inl rfl)⟩

theorem reproduceEvents_inv (h : List Nat → List Nat) (td : TrustDomain)
    (evs : List TdEvent) (k2 : List Nat) (hok : reproduceEvents h td = .ok (evs, k2)) :
    ∃ pre post, preKernelEvents h td = .ok pre ∧
      qemuPatchKernel td.software td.hardware.totalMemoryBytes = .ok k2 ∧
      postPatchEvents h td.software.initrd td.software.cmdline k2 = .ok post ∧
      evs = pre ++ post := by
  unfold reproduceEvents at hok
  obtain ⟨pre, hpre, hok⟩ := exceptBindOkInv _ _ _ hok
  obtain ⟨patched, hpatch, hok⟩ := exceptBindOkInv _ _ _ hok
  obtain ⟨post, hpost, hok⟩ := exceptBindOkInv _ _ _ hok
  injection hok with hok
  cases hok
  exact ⟨pre, post, hpre, hpatch, hpost, rfl⟩

/-! ## Secure Boot variable preimage -/

/-- C3 (amended): the SecureBoot empty-variable preimage is the
concatenation uuid(8be4df61-93ca-11d2-aa0d-00e098032b8c) || u64le(10) ||
zeros(8) || utf16le("SecureBoot"); this concatenation is a 52-byte (not
44-byte) string — 16 + 8 + 8 + 20 bytes — and in every successful event
reproduction the "Secure boot mode" event's digest is SHA-384 (abstract
h) of it. -/
theorem c3_secureboot_preimage (h : List Nat → List Nat) (td : TrustDomain)
    (evs : List TdEvent) (k2 : List Nat)
    (hok : reproduceEvents h td = .ok (evs, k2)) :
    getEmptyDriverConfigVariable GLOBAL_VAR_GUID "SecureBoot" =
      uuidToBytes GLOBAL_VAR_GUID ++ u64le 10 ++ List.replicate 8 0 ++
        utf16LeEncode "SecureBoot" ∧
    (getEmptyDriverConfigVariable GLOBAL_VAR_GUID "SecureBoot").length = 52 ∧
    ∀ ev ∈ evs, ev.name = "Secure boot mode" →
      ev.digest = h (getEmptyDriverConfigVariable GLOBAL_VAR_GUID "SecureBoot") := by
  refine ⟨by decide, by decide, ?_⟩
  obtain ⟨pre, post, hpre, hpatch, hpost, rfl⟩ := reproduceEvents_inv h td evs k2 hok
  intro ev hev hname
  rcases List.mem_append.mp hev with hev | hev
  · exact (preKernelEvents_shape h td pre hpre ev hev).2 hname
  · exact absurd hname (postPatchEvents_shape h _ _ _ post hpost ev hev).1

/-- C3 counterexample: the SecureBoot variable preimage is 52 bytes
long (16-byte GUID + 8-byte length + 8 zero bytes + 20 bytes of
UTF-16LE "SecureBoot"), not 44 bytes as the claim states. -/
theorem c3_counterexample :
    (getEmptyDriverConfigVariable GLOBAL_VAR_GUID "SecureBoot").length = 52 ∧
    (getEmptyDriverConfigVariable GLOBAL_VAR_GUID "SecureBoot").length ≠ 44 :=
  ⟨by decide, by decide⟩

/-- C3 witness: the amended theorem applied to the td0 run. -/
theorem c3_witness :
    reproduceEvents h0 td0 = .ok (eventsRun0.1, eventsRun0.2) ∧
    ∀ ev ∈ eventsRun0.1, ev.name = "Secure boot mode" →
      ev.digest = h0 (getEmptyDriverConfigVariable GLOBAL_VAR_GUID "SecureBoot") :=
  ⟨rfl, (c3_secureboot_preimage h0 td0 eventsRun0.1 eventsRun0.2 rfl).2.2⟩

/-! ## RTMR register invariants -/

theorem foldRegisters_untouched (h : List Nat → List Nat) (events : List TdEvent)
    (r : Nat) (init : List (List Nat)) (hr : ∀ ev ∈ events, ev.register ≠ r) :
    (events.foldl
      (fun registers ev =>
        registers.set ev.register
          (h (concatBytes [registers.getD ev.register [], ev.digest]))) init).getD r [] =
      init.getD r [] := by
  induction events generalizing init with
  | nil => rfl
  | cons ev rest ih =>
    rw [List.foldl_cons]
    rw [ih _ (fun e he => hr e (List.mem_cons_of_mem _ he))]
    have hne : ev.register ≠ r := hr ev (List.mem_cons_self _ _)
    simp only [List.getD_eq_getElem?_getD, List.getElem?_set_ne hne]

/-- C9: in every successful reproduceRtmr run, every event targets
register 0, 1 or 2; register 3 of the returned set is 48 zero bytes;
and any register below 4 not targeted by an event stays all-zero. -/
theorem c9_registers_untouched (h : List Nat → List Nat) (td : TrustDomain)
    (res : RtmrResult) (hok : reproduceRtmr h td = .ok res) :
    (∀ ev ∈ res.events, ev.register = 0 ∨ ev.register = 1 ∨ ev.register = 2) ∧
    res.registers.getD 3 [] = List.replicate 48 0 ∧
    (∀ r, r < 4 → (∀ ev ∈ res.events, ev.register ≠ r) →
      res.registers.getD r [] = List.replicate 48 0) := by
  unfold reproduceRtmr at hok
  obtain ⟨rr, hre, hok⟩ := exceptBindOkInv _ _ _ hok
  injection hok with hok
  subst hok
  obtain ⟨evs, k2⟩ := rr
  obtain ⟨pre, post, hpre, hpatch, hpost, hevs⟩ := reproduceEvents_inv h td evs k2 hre
  have hreg : ∀ ev ∈ evs, ev.register = 0 ∨ ev.register = 1 ∨ ev.register = 2 := by
    intro ev hev
    rw [hevs] at hev
    rcases List.mem_append.mp hev with hev | hev
    · exact Or.inl (preKernelEvents_shape h td pre hpre ev hev).1
    · exact (postPatchEvents_shape h _ _ _ post hpost ev hev).2
  have huntouched : ∀ r, r < 4 → (∀ ev ∈ evs, ev.register ≠ r) →
      (foldRegisters h evs).getD r [] = List.replicate 48 0 := by
    intro r hlt hne
    unfold foldRegisters
    rw [foldRegisters_untouched h evs r _ hne]
    simp only [List.getD_eq_getElem?_getD, List.getElem?_replicate_of_lt hlt,
      Option.getD_some]
  refine ⟨hreg, ?_, huntouched⟩
  exact huntouched 3 (by omega) (fun ev hev => by rcases hreg ev hev with hh | hh | hh <;> omega)

/-- C9 witness: the theorem applied to the td0 run. -/
theorem c9_witness :
    reproduceRtmr h0 td0 = .ok rtmr0 ∧
    rtmr0.registers.getD 3 [] = List.replicate 48 0 :=
  ⟨rfl, (c9_registers_untouched h0 td0 rtmr0 rfl).2.1⟩

/-! ## Kernel patch idempotence: byte-level helpers -/

theorem length_u16le (v : Nat) : (u16le v).length = 2 := rfl

theorem length_u32le (v : Nat) : (u32le v).length = 4 := rfl

theorem getD_writeBytes_out (d : List Nat) (b : List Nat) (o i : Nat)
    (h : i < o ∨ o + d.length ≤ i) :
    (writeBytes b o d).getD i 0 = b.getD i 0 := by
  simp only [List.getD_eq_getElem?_getD, getElem?_writeBytes]
  rw [if_neg (by omega)]

theorem getD_writeBytes_in (d : List Nat) (b : List Nat) (o j : Nat)
    (hj : j < d.length) (hlen : o + d.length ≤ b.length) :
    (writeBytes b o d).getD (o + j) 0 = d.getD j 0 := by
  simp only [List.getD_eq_getElem?_getD, getElem?_writeBytes]
  rw [if_pos (by omega), show o + j - o = j by omega]

theorem getD_set_out (b : List Nat) (j i x : Nat) (h : j ≠ i) :
    (b.set j x).getD i 0 = b.getD i 0 := by
  simp only [List.getD_eq_getElem?_getD, List.getElem?_set_ne h]

theorem getD_set_in (b : List Nat) (i x : Nat) (h : i < b.length) :
    (b.set i x).getD i 0 = x := by
  simp only [List.getD_eq_getElem?_getD, List.getElem?_set_self h, Option.getD_some]

theorem set_eq_self_of_getD (b : List Nat) (i x : Nat) (h : b.getD i 0 = x) :
    b.set i x = b := by
  by_cases hi : i < b.length
  · apply List.ext_getElem?
    intro j
    by_cases hij : i = j
    · subst hij
      rw [List.getElem?_set_self hi, List.getElem?_eq_getElem hi]
      rw [List.getD_eq_getElem?_getD, List.getElem?_eq_getElem hi] at h
      simp only [Option.getD_some] at h
      rw [h]
    · exact List.getElem?_set_ne hij
  · exact List.set_eq_of_length_le (by omega)

theorem writeBytes_eq_self_of_getD (d : List Nat) (b : List Nat) (o : Nat)
    (hlen : o + d.length ≤ b.length)
    (h : ∀ j, j < d.length → b.getD (o + j) 0 = d.getD j 0) :
    writeBytes b o d = b := by
  induction d generalizing b o with
  | nil => rfl
  | cons x xs ih =>
    show writeBytes (b.set o x) (o + 1) xs = b
    have hbx : b.set o x = b := by
      apply set_eq_self_of_getD
      simpa using h 0 (by simp)
    rw [hbx]
    apply ih
    · simp only [List.length_cons] at hlen
      omega
    · intro j hj
      have := h (j + 1) (by simp only [List.length_cons]; omega)
      rw [show o + 1 + j = o + (j + 1) by omega]
      simpa using this

theorem lor128_and1 (x : Nat) : (x ||| 0x80) &&& 1 = x &&& 1 := by
  apply Nat.eq_of_testBit_eq
  intro i
  simp only [Nat.testBit_and, Nat.testBit_or]
  cases i with
  | zero =>
    rw [show Nat.testBit 0x80 0 = false from by decide]
    simp
  | succ n =>
    rw [show Nat.testBit 1 (n + 1) = false from by
      rw [Nat.testBit_succ]
      simp]
    simp

theorem lor128_lor128 (x : Nat) : (x ||| 0x80) ||| 0x80 = x ||| 0x80 := by
  apply Nat.eq_of_testBit_eq
  intro i
  simp [Nat.testBit_or, Bool.or_assoc]

theorem setU16_ok_inv (b : List Nat) (o : Nat) (v : Int) (k1 : List Nat)
    (h : setU16 b o v = .ok k1) :
    o + 2 ≤ b.length ∧ k1 = writeBytes b o (u16le (toU16 v)) := by
  unfold setU16 at h
  by_cases hle : o + 2 ≤ b.length
  · rw [if_pos hle] at h
    injection h with h
    exact ⟨hle, h.symm⟩
  · rw [if_neg hle] at h
    exact Except.noConfusion h

theorem setU32_ok_inv (b : List Nat) (o : Nat) (v : Int) (k1 : List Nat)
    (h : setU32 b o v = .ok k1) :
    o + 4 ≤ b.length ∧ k1 = writeBytes b o (u32le (toU32 v)) := by
  unfold setU32 at h
  by_cases hle : o + 4 ≤ b.length
  · rw [if_pos hle] at h
    injection h with h
    exact ⟨hle, h.symm⟩
  · rw [if_neg hle] at h
    exact Except.noConfusion h

theorem setU16_ok_of (b : List Nat) (o : Nat) (v : Int) (h : o + 2 ≤ b.length) :
    setU16 b o v = .ok (writeBytes b o (u16le (toU16 v))) := by
  unfold setU16
  rw [if_pos h]

theorem setU32_ok_of (b : List Nat) (o : Nat) (v : Int) (h : o + 4 ≤ b.length) :
    setU32 b o v = .ok (writeBytes b o (u32le (toU32 v))) := by
  unfold setU32
  rw [if_pos h]

theorem getElem?_eq_of_getD (b2 b : List Nat) (j : Nat) (hlen : b2.length = b.length)
    (h : b2.getD j 0 = b.getD j 0) : b2[j]? = b[j]? := by
  by_cases hj : j < b.length
  · rw [List.getD_eq_getElem?_getD, List.getD_eq_getElem?_getD,
      List.getElem?_eq_getElem (show j < b2.length by omega),
      List.getElem?_eq_getElem hj] at h
    simp only [Option.getD_some] at h
    rw [List.getElem?_eq_getElem (show j < b2.length by omega),
      List.getElem?_eq_getElem hj, h]
  · rw [List.getElem?_eq_none (by omega), List.getElem?_eq_none (by omega)]

theorem subarray_congr (b2 b : List Nat) (s e : Nat) (hlen : b2.length = b.length)
    (h : ∀ i, s ≤ i → i < e → b2.getD i 0 = b.getD i 0) :
    subarray b2 s e = subarray b s e := by
  apply List.ext_getElem?
  intro i
  unfold subarray
  rw [List.getElem?_take, List.getElem?_take]
  by_cases hi : i < e - s
  · rw [if_pos hi, if_pos hi, List.getElem?_drop, List.getElem?_drop]
    exact getElem?_eq_of_getD b2 b (s + i) hlen (h (s + i) (by omega) (by omega))
  · rw [if_neg hi, if_neg hi]

theorem getU16_congr (b2 b : List Nat) (o : Nat) (hlen : b2.length = b.length)
    (h0 : b2.getD o 0 = b.getD o 0) (h1 : b2.getD (o + 1) 0 = b.getD (o + 1) 0) :
    getU16 b2 o = getU16 b o := by
  unfold getU16 getU16leD
  rw [hlen, h0, h1]

theorem getU32_congr (b2 b : List Nat) (o : Nat) (hlen : b2.length = b.length)
    (h0 : b2.getD o 0 = b.getD o 0) (h1 : b2.getD (o + 1) 0 = b.getD (o + 1) 0)
    (h2 : b2.getD (o + 2) 0 = b.getD (o + 2) 0)
    (h3 : b2.getD (o + 3) 0 = b.getD (o + 3) 0) :
    getU32 b2 o = getU32 b o := by
  unfold getU32 getU32leD
  rw [hlen, h0, h1, h2, h3]

theorem writeInitrdPatch_spec (k3 : List Nat) (i0 : Option (List Nat)) (p : Nat)
    (m : Int) (k2 : List Nat) (h4 : writeInitrdPatch k3 p m i0 = .ok k2) :
    k2.length = k3.length ∧
    (∀ i, i < 0x218 ∨ 0x220 ≤ i → k2.getD i 0 = k3.getD i 0) ∧
    writeInitrdPatch k2 p m i0 = .ok k2 := by
  cases i0 with
  | none =>
    injection h4 with h4
    subst h4
    exact ⟨rfl, fun i _ => rfl, rfl⟩
  | some ini =>
    simp only [writeInitrdPatch] at h4 ⊢
    by_cases h200 : p < 0x200
    · rw [if_pos h200] at h4
      exact Except.noConfusion h4
    · rw [if_neg h200] at h4 ⊢
      by_cases hsz : (ini.length : Int) ≥ m
      · rw [if_pos hsz] at h4
        exact Except.noConfusion h4
      · rw [if_neg hsz] at h4 ⊢
        obtain ⟨ka, hka, h4⟩ := exceptBindOkInv _ _ _ h4
        obtain ⟨hle1, rfl⟩ := setU32_ok_inv _ _ _ _ hka
        obtain ⟨hle2, rfl⟩ := setU32_ok_inv _ _ _ _ h4
        have hlen : (writeBytes (writeBytes k3 0x218 (u32le (toU32
            ((((m - (ini.length : Int)).toNat / 4096 * 4096 : Nat) : Int))))) 0x21c
            (u32le (toU32 (ini.length : Int)))).length = k3.length := by
          rw [length_writeBytes, length_writeBytes]
        rw [length_writeBytes] at hle2
        refine ⟨hlen, ?_, ?_⟩
        · intro i hi
          rw [getD_writeBytes_out _ _ _ _ (by simp only [length_u32le]; omega),
            getD_writeBytes_out _ _ _ _ (by simp only [length_u32le]; omega)]
        · rw [setU32_ok_of _ _ _ (by rw [hlen]; exact hle1)]
          rw [exceptOkBind]
          rw [writeBytes_eq_self_of_getD _ _ _ (by rw [hlen]; exact hle1) ?hvals]
          case hvals =>
            intro j hj
            simp only [length_u32le] at hj
            rw [getD_writeBytes_out _ _ _ _ (by simp only [length_u32le]; omega)]
            exact getD_writeBytes_in _ _ _ _ (by simp only [length_u32le]; omega) hle1
          rw [setU32_ok_of _ _ _ (by rw [hlen]; exact hle2)]
          rw [writeBytes_eq_self_of_getD _ _ _ (by rw [hlen]; exact hle2) ?hvals2]
          case hvals2 =>
            intro j hj
            simp only [length_u32le] at hj
            exact getD_writeBytes_in _ _ _ _ (by simp only [length_u32le]; omega)
              (by rw [length_writeBytes]; exact hle2)

theorem writeKernelPatch_spec (k : List Nat) (p : Nat) (ca ra : Int) (k3 : List Nat)
    (h3 : writeKernelPatch k p ca ra = .ok k3) :
    k3.length = k.length ∧
    (∀ i, (i < 0x20 ∨ (0x24 ≤ i ∧ i < 0x210) ∨ (0x212 ≤ i ∧ i < 0x224) ∨
        (0x226 ≤ i ∧ i < 0x228) ∨ 0x22c ≤ i) → k3.getD i 0 = k.getD i 0) ∧
    k3.getD 0x211 0 &&& 1 = k.getD 0x211 0 &&& 1 ∧
    (∀ b, b.length = k.length →
      (∀ i, i < 0x218 ∨ 0x220 ≤ i → b.getD i 0 = k3.getD i 0) →
      writeKernelPatch b p ca ra = .ok b) := by
  unfold writeKernelPatch at h3
  simp only [] at h3
  by_cases h202 : p ≥ 0x202
  · rw [if_pos h202] at h3
    obtain ⟨k1, hk1, h3⟩ := exceptBindOkInv _ _ _ h3
    obtain ⟨hle1, rfl⟩ := setU32_ok_inv _ _ _ _ hk1
    rw [if_pos (show p ≥ 0x200 by omega), if_pos (show p ≥ 0x201 by omega)] at h3
    obtain ⟨hle2, rfl⟩ := setU16_ok_inv _ _ _ _ h3
    rw [List.length_set, List.length_set, length_writeBytes] at hle2
    refine ⟨?_, ?_, ?_, ?_⟩
    · rw [length_writeBytes, List.length_set, List.length_set, length_writeBytes]
    · intro i hi
      rw [getD_writeBytes_out _ _ _ _ (by simp only [length_u16le]; omega),
        getD_set_out _ _ _ _ (by omega), getD_set_out _ _ _ _ (by omega),
        getD_writeBytes_out _ _ _ _ (by simp only [length_u32le]; omega)]
    · rw [getD_writeBytes_out _ _ _ _ (by simp only [length_u16le]; omega),
        getD_set_in _ _ _ (by rw [List.length_set, length_writeBytes]; omega),
        getD_set_out _ _ _ _ (by omega),
        getD_writeBytes_out _ _ _ _ (by simp only [length_u32le]; omega)]
      exact lor128_and1 _
    · intro b hblen hagree
      unfold writeKernelPatch
      simp only []
      rw [if_pos h202, setU32_ok_of b 0x228 ca (by omega), exceptOkBind]
      have hwb1 : writeBytes b 0x228 (u32le (toU32 ca)) = b := by
        apply writeBytes_eq_self_of_getD _ _ _ (by simp only [length_u32le]; omega)
        intro j hj
        simp only [length_u32le] at hj
        rw [hagree (0x228 + j) (by omega),
          getD_writeBytes_out _ _ _ _ (by simp only [length_u16le]; omega),
          getD_set_out _ _ _ _ (by omega), getD_set_out _ _ _ _ (by omega)]
        exact getD_writeBytes_in _ _ _ _ (by simp only [length_u32le]; omega) hle1
      rw [hwb1]
      rw [if_pos (show p ≥ 0x200 by omega)]
      have hset210 : b.set 0x210 0xb0 = b := by
        apply set_eq_self_of_getD
        rw [hagree 0x210 (by omega),
          getD_writeBytes_out _ _ _ _ (by simp only [length_u16le]; omega),
          getD_set_out _ _ _ _ (by omega)]
        exact getD_set_in _ _ _ (by rw [length_writeBytes]; omega)
      rw [hset210, if_pos (show p ≥ 0x201 by omega)]
      have hb211 : b.getD 0x211 0 = k.getD 0x211 0 ||| 0x80 := by
        rw [hagree 0x211 (by omega),
          getD_writeBytes_out _ _ _ _ (by simp only [length_u16le]; omega),
          getD_set_in _ _ _ (by rw [List.length_set, length_writeBytes]; omega),
          getD_set_out _ _ _ _ (by omega),
          getD_writeBytes_out _ _ _ _ (by simp only [length_u32le]; omega)]
      have hset211 : b.set 0x211 (b.getD 0x211 0 ||| 0x80) = b := by
        apply set_eq_self_of_getD
        rw [hb211, lor128_lor128, ← hb211]
      rw [hset211, setU16_ok_of b 0x224 _ (by omega)]
      have hwb3 : writeBytes b 0x224 (u16le (toU16 (ca - ra - 0x200))) = b := by
        apply writeBytes_eq_self_of_getD _ _ _ (by simp only [length_u16le]; omega)
        intro j hj
        simp only [length_u16le] at hj
        rw [hagree (0x224 + j) (by omega)]
        exact getD_writeBytes_in _ _ _ _ (by simp only [length_u16le]; omega)
          (by simp only [length_u16le]
              rw [List.length_set, List.length_set, length_writeBytes]
              omega)
      rw [hwb3]
  · rw [if_neg h202] at h3
    obtain ⟨ka, hka, h3⟩ := exceptBindOkInv _ _ _ h3
    obtain ⟨k1, hk1, h3⟩ := exceptBindOkInv _ _ _ h3
    obtain ⟨hle0, rfl⟩ := setU16_ok_inv _ _ _ _ hka
    obtain ⟨hle1, rfl⟩ := setU16_ok_inv _ _ _ _ hk1
    rw [length_writeBytes] at hle1
    by_cases h201 : p ≥ 0x201
    · rw [if_pos (show p ≥ 0x200 by omega), if_pos h201] at h3
      obtain ⟨hle2, rfl⟩ := setU16_ok_inv _ _ _ _ h3
      rw [List.length_set, List.length_set, length_writeBytes, length_writeBytes] at hle2
      refine ⟨?_, ?_, ?_, ?_⟩
      · rw [length_writeBytes, List.length_set, List.length_set, length_writeBytes,
          length_writeBytes]
      · intro i hi
        rw [getD_writeBytes_out _ _ _ _ (by simp only [length_u16le]; omega),
          getD_set_out _ _ _ _ (by omega), getD_set_out _ _ _ _ (by omega),
          getD_writeBytes_out _ _ _ _ (by simp only [length_u16le]; omega),
          getD_writeBytes_out _ _ _ _ (by simp only [length_u16le]; omega)]
      · rw [getD_writeBytes_out _ _ _ _ (by simp only [length_u16le]; omega),
          getD_set_in _ _ _
            (by rw [List.length_set, length_writeBytes, length_writeBytes]; omega),
          getD_set_out _ _ _ _ (by omega),
          getD_writeBytes_out _ _ _ _ (by simp only [length_u16le]; omega),
          getD_writeBytes_out _ _ _ _ (by simp only [length_u16le]; omega)]
        exact lor128_and1 _
      · intro b hblen hagree
        unfold writeKernelPatch
        simp only []
        rw [if_neg h202, setU16_ok_of b 0x20 0xa33f (by omega), exceptOkBind]
        have hwb0 : writeBytes b 0x20 (u16le (toU16 0xa33f)) = b := by
          apply writeBytes_eq_self_of_getD _ _ _ (by simp only [length_u16le]; omega)
          intro j hj
          simp only [length_u16le] at hj
          rw [hagree (0x20 + j) (by omega),
            getD_writeBytes_out _ _ _ _ (by simp only [length_u16le]; omega),
            getD_set_out _ _ _ _ (by omega), getD_set_out _ _ _ _ (by omega),
            getD_writeBytes_out _ _ _ _ (by simp only [length_u16le]; omega)]
          exact getD_writeBytes_in _ _ _ _ (by simp only [length_u16le]; omega) hle0
        rw [hwb0, setU16_ok_of b 0x22 _ (by omega), exceptOkBind]
        have hwb1 : writeBytes b 0x22 (u16le (toU16 (ca - ra))) = b := by
          apply writeBytes_eq_self_of_getD _ _ _ (by simp only [length_u16le]; omega)
          intro j hj
          simp only [length_u16le] at hj
          rw [hagree (0x22 + j) (by omega),
            getD_writeBytes_out _ _ _ _ (by simp only [length_u16le]; omega),
            getD_set_out _ _ _ _ (by omega), getD_set_out _ _ _ _ (by omega)]
          exact getD_writeBytes_in _ _ _ _ (by simp only [length_u16le]; omega)
            (by simp only [length_u16le]; rw [length_writeBytes]; omega)
        rw [hwb1]
        rw [if_pos (show p ≥ 0x200 by omega)]
        have hset210 : b.set 0x210 0xb0 = b := by
          apply set_eq_self_of_getD
          rw [hagree 0x210 (by omega),
            getD_writeBytes_out _ _ _ _ (by simp only [length_u16le]; omega),
            getD_set_out _ _ _ _ (by omega)]
          exact getD_set_in _ _ _ (by rw [length_writeBytes, length_writeBytes]; omega)
        rw [hset210, if_pos h201]
        have hb211 : b.getD 0x211 0 = k.getD 0x211 0 ||| 0x80 := by
          rw [hagree 0x211 (by omega),
            getD_writeBytes_out _ _ _ _ (by simp only [length_u16le]; omega),
            getD_set_in _ _ _
              (by rw [List.length_set, length_writeBytes, length_writeBytes]; omega),
            getD_set_out _ _ _ _ (by omega),
            getD_writeBytes_out _ _ _ _ (by simp only [length_u16le]; omega),
            getD_writeBytes_out _ _ _ _ (by simp only [length_u16le]; omega)]
        have hset211 : b.set 0x211 (b.getD 0x211 0 ||| 0x80) = b := by
          apply set_eq_self_of_getD
          rw [hb211, lor128_lor128, ← hb211]
        rw [hset211, setU16_ok_of b 0x224 _ (by omega)]
        have hwb3 : writeBytes b 0x224 (u16le (toU16 (ca - ra - 0x200))) = b := by
          apply writeBytes_eq_self_of_getD _ _ _ (by simp only [length_u16le]; omega)
          intro j hj
          simp only [length_u16le] at hj
          rw [hagree (0x224 + j) (by omega)]
          exact getD_writeBytes_in _ _ _ _ (by simp only [length_u16le]; omega)
            (by simp only [length_u16le]
                rw [List.length_set, List.length_set, length_writeBytes, length_writeBytes]
                omega)
        rw [hwb3]
    · by_cases h200 : p ≥ 0x200
      · rw [if_pos h200, if_neg h201] at h3
        injection h3 with h3
        subst h3
        refine ⟨?_, ?_, ?_, ?_⟩
        · rw [List.length_set, length_writeBytes, length_writeBytes]
        · intro i hi
          rw [getD_set_out _ _ _ _ (by omega),
            getD_writeBytes_out _ _ _ _ (by simp only [length_u16le]; omega),
            getD_writeBytes_out _ _ _ _ (by simp only [length_u16le]; omega)]
        · rw [getD_set_out _ _ _ _ (by omega),
            getD_writeBytes_out _ _ _ _ (by simp only [length_u16le]; omega),
            getD_writeBytes_out _ _ _ _ (by simp only [length_u16le]; omega)]
        · intro b hblen hagree
          unfold writeKernelPatch
          simp only []
          rw [if_neg h202, setU16_ok_of b 0x20 0xa33f (by omega), exceptOkBind]
          have hwb0 : writeBytes b 0x20 (u16le (toU16 0xa33f)) = b := by
            apply writeBytes_eq_self_of_getD _ _ _ (by simp only [length_u16le]; omega)
            intro j hj
            simp only [length_u16le] at hj
            rw [hagree (0x20 + j) (by omega), getD_set_out _ _ _ _ (by omega),
              getD_writeBytes_out _ _ _ _ (by simp only [length_u16le]; omega)]
            exact getD_writeBytes_in _ _ _ _ (by simp only [length_u16le]; omega) hle0
          rw [hwb0, setU16_ok_of b 0x22 _ (by omega), exceptOkBind]
          have hwb1 : writeBytes b 0x22 (u16le (toU16 (ca - ra))) = b := by
            apply writeBytes_eq_self_of_getD _ _ _ (by simp only [length_u16le]; omega)
            intro j hj
            simp only [length_u16le] at hj
            rw [hagree (0x22 + j) (by omega), getD_set_out _ _ _ _ (by omega)]
            exact getD_writeBytes_in _ _ _ _ (by simp only [length_u16le]; omega)
              (by simp only [length_u16le]; rw [length_writeBytes]; omega)
          rw [hwb1]
          rw [if_pos h200]
          have hset210 : b.set 0x210 0xb0 = b := by
            by_cases h210 : 0x210 < k.length
            · apply set_eq_self_of_getD
              rw [hagree 0x210 (by omega)]
              exact getD_set_in _ _ _
                (by rw [length_writeBytes, length_writeBytes]; omega)
            · exact List.set_eq_of_length_le (by omega)
          rw [hset210, if_neg h201]
          rfl
      · rw [if_neg (show ¬ p ≥ 0x200 from h200), if_neg h201] at h3
        injection h3 with h3
        subst h3
        refine ⟨?_, ?_, ?_, ?_⟩
        · rw [length_writeBytes, length_writeBytes]
        · intro i hi
          rw [getD_writeBytes_out _ _ _ _ (by simp only [length_u16le]; omega),
            getD_writeBytes_out _ _ _ _ (by simp only [length_u16le]; omega)]
        · rw [getD_writeBytes_out _ _ _ _ (by simp only [length_u16le]; omega),
            getD_writeBytes_out _ _ _ _ (by simp only [length_u16le]; omega)]
        · intro b hblen hagree
          unfold writeKernelPatch
          rw [if_neg h202, setU16_ok_of b 0x20 0xa33f (by omega), exceptOkBind]
          have hwb0 : writeBytes b 0x20 (u16le (toU16 0xa33f)) = b := by
            apply writeBytes_eq_self_of_getD _ _ _ (by simp only [length_u16le]; omega)
            intro j hj
            simp only [length_u16le] at hj
            rw [hagree (0x20 + j) (by omega),
              getD_writeBytes_out _ _ _ _ (by simp only [length_u16le]; omega)]
            exact getD_writeBytes_in _ _ _ _ (by simp only [length_u16le]; omega) hle0
          rw [hwb0, setU16_ok_of b 0x22 _ (by omega), exceptOkBind]
          have hwb1 : writeBytes b 0x22 (u16le (toU16 (ca - ra))) = b := by
            apply writeBytes_eq_self_of_getD _ _ _ (by simp only [length_u16le]; omega)
            intro j hj
            simp only [length_u16le] at hj
            rw [hagree (0x22 + j) (by omega)]
            exact getD_writeBytes_in _ _ _ _ (by simp only [length_u16le]; omega)
              (by simp only [length_u16le]; rw [length_writeBytes]; omega)
          rw [hwb1]
          simp only []
          rw [if_neg h200, if_neg h201]
          rfl

theorem qemuPatchKernel_idem (sw : TdSoftware) (r : Nat) (k2 : List Nat)
    (h : qemuPatchKernel sw r = .ok k2) :
    qemuPatchKernel { kernel := k2, initrd := sw.initrd, cmdline := sw.cmdline } r =
      .ok k2 := by
  unfold qemuPatchKernel at h
  simp only [] at h
  obtain ⟨prot, hprot, h⟩ := exceptBindOkInv _ _ _ h
  obtain ⟨xlf, hxlf, h⟩ := exceptBindOkInv _ _ _ h
  obtain ⟨imax, himax, h⟩ := exceptBindOkInv _ _ _ h
  obtain ⟨k1, hk1, h⟩ := exceptBindOkInv _ _ _ h
  obtain ⟨hlen1, hframe1, hbit1, hidem1⟩ := writeKernelPatch_spec _ _ _ _ _ hk1
  obtain ⟨hlen2, hframe2, hidem2⟩ := writeInitrdPatch_spec _ _ _ _ _ h
  have hlen : k2.length = sw.kernel.length := hlen2.trans hlen1
  have hb : ∀ i, (i < 0x20 ∨ (0x24 ≤ i ∧ i < 0x210) ∨ (0x212 ≤ i ∧ i < 0x218) ∨
      (0x220 ≤ i ∧ i < 0x224) ∨ (0x226 ≤ i ∧ i < 0x228) ∨ 0x22c ≤ i) →
      k2.getD i 0 = sw.kernel.getD i 0 := by
    intro i hi
    rw [hframe2 i (by omega)]
    exact hframe1 i (by omega)
  have hb211 : k2.getD 0x211 0 &&& 0x01 = sw.kernel.getD 0x211 0 &&& 0x01 := by
    rw [hframe2 0x211 (by omega)]
    exact hbit1
  have hprot2 : readProtocol k2 = .ok prot := by
    unfold readProtocol at hprot ⊢
    rw [subarray_congr k2 sw.kernel 0x202 0x206 hlen
        (fun i hs he => hb i (by omega)),
      getU16_congr k2 sw.kernel 0x206 hlen (hb _ (by omega)) (hb _ (by omega))]
    exact hprot
  have hxlf2 : readUseXlf k2 prot = .ok xlf := by
    unfold readUseXlf at hxlf ⊢
    by_cases hx : prot ≥ 0x20c
    · rw [if_pos hx] at hxlf ⊢
      rw [getU16_congr k2 sw.kernel 0x236 hlen (hb _ (by omega)) (hb _ (by omega))]
      exact hxlf
    · rw [if_neg hx] at hxlf ⊢
      exact hxlf
  have himax2 : readInitrdMaxRaw k2 prot xlf = .ok imax := by
    unfold readInitrdMaxRaw at himax ⊢
    cases xlf with
    | true => exact himax
    | false =>
      by_cases h203 : prot ≥ 0x203
      · simp only [Bool.false_eq_true, if_false] at himax ⊢
        rw [if_pos h203] at himax ⊢
        rw [getU32_congr k2 sw.kernel 0x22c hlen (hb _ (by omega)) (hb _ (by omega))
          (hb _ (by omega)) (hb _ (by omega))]
        exact himax
      · simp only [Bool.false_eq_true, if_false] at himax ⊢
        rw [if_neg h203] at himax ⊢
        exact himax
  unfold qemuPatchKernel
  simp only []
  rw [hprot2, exceptOkBind]
  rw [hb211]
  rw [hxlf2, exceptOkBind]
  rw [himax2, exceptOkBind]
  rw [hidem1 k2 hlen hframe2, exceptOkBind]
  exact hidem2

theorem preKernelEvents_software_irrel (h : List Nat → List Nat) (td : TrustDomain)
    (sw : TdSoftware) :
    preKernelEvents h { td with software := sw } = preKernelEvents h td := rfl

theorem reproduceEvents_idem (h : List Nat → List Nat) (td : TrustDomain)
    (evs : List TdEvent) (pk : List Nat)
    (hrun : reproduceEvents h td = .ok (evs, pk)) :
    reproduceEvents h
      { td with software := { kernel := pk, initrd := td.software.initrd,
                              cmdline := td.software.cmdline } } = .ok (evs, pk) := by
  unfold reproduceEvents at hrun ⊢
  simp only [] at hrun ⊢
  obtain ⟨pre, hpre, hrun⟩ := exceptBindOkInv _ _ _ hrun
  obtain ⟨pk1, hpk1, hrun⟩ := exceptBindOkInv _ _ _ hrun
  obtain ⟨post, hpost, hrun⟩ := exceptBindOkInv _ _ _ hrun
  injection hrun with hrun
  injection hrun with h1 h2
  subst h1
  subst h2
  rw [preKernelEvents_software_irrel, hpre, exceptOkBind,
    qemuPatchKernel_idem _ _ _ hpk1, exceptOkBind, hpost, exceptOkBind]

/-- C2: reproduce_mrtd and reproduce_rtmr are deterministic: reproduce_mrtd is a
pure function of the firmware, and when reproduce_rtmr succeeds on a trust
domain, running it again on the trust domain as left by the first call (its
kernel buffer patched in place) succeeds with identical registers and events
and leaves the state unchanged — the kernel header patch is idempotent. -/
theorem c2_reproduction_deterministic (h : List Nat → List Nat) (td : TrustDomain)
    (res : RtmrResult) (td' : TrustDomain)
    (hrun : reproduceRtmrWithState h td = .ok (res, td')) :
    (∀ fw : TdFirmware, reproduceMrtd h fw = reproduceMrtd h fw) ∧
    reproduceRtmrWithState h td' = .ok (res, td') := by
  refine ⟨fun _ => rfl, ?_⟩
  unfold reproduceRtmrWithState at hrun ⊢
  simp only [] at hrun ⊢
  obtain ⟨r, hr, hrun⟩ := exceptBindOkInv _ _ _ hrun
  injection hrun with hrun
  injection hrun with h1 h2
  subst h1
  subst h2
  simp only []
  rw [reproduceEvents_idem h td r.1 r.2 hr, exceptOkBind]

theorem c2_witness :
    reproduceRtmrWithState h0 td0 = .ok (rtmr0, td1) ∧
    reproduceRtmrWithState h0 td1 = .ok (rtmr0, td1) := by
  have hrun : reproduceRtmrWithState h0 td0 = .ok (rtmr0, td1) := by rfl
  exact ⟨hrun, (c2_reproduction_deterministic h0 td0 rtmr0 td1 hrun).2⟩

end TdReport
